import Mathlib

/-
Verification of `pypff/io.py` (classes `hkpff` and `datapff`).

The Python source is shallowly embedded below:

* Python strings are `List Char` (filenames) or `String` (JSON keys);
  file contents are `List Nat` (one `Nat` per byte).
* Python exceptions are the `PyErr` error type of an `Except` monad.
* `str.split(c)` is `pysplit`, `int(s)` is `pyInt`,
  `datetime.strptime(s, "%Y-%m-%dT%H:%M:%SZ")` is `parseTimestamp`.
* `json.loads` and the two `pixelmap` lookups live outside this repository;
  they enter the model as explicit function parameters (record `Ext`).
* numpy's `frombuffer` / `reshape` / slicing / `tobytes` are modelled
  element-wise on lists (`frombuffer`, `reshapeRows`, `toBytes`).

State notes: `datapff.readpff` is modelled as a single call on a freshly
constructed object (`self.metadata = {}` from `__init__`, `self.data` not
yet assigned), matching every claim, all of which concern one `Read` pass.
-/

set_option maxRecDepth 20000

/-- The Python exceptions that `io.py` can raise. -/
inductive PyErr where
  | indexError
  | valueError
  | typeError
  | attributeError
  | keyError (k : String)
deriving DecidableEq, Repr

/-- `match e with | .ok a => f a | .error err => .error err` — the bind of the
`Except PyErr` monad, written explicitly so proofs can invert it. -/
def eBind {α β : Type} (e : Except PyErr α) (f : α → Except PyErr β) : Except PyErr β :=
  match e with
  | .ok a => f a
  | .error err => .error err

theorem eBind_ok_iff {α β : Type} {e : Except PyErr α} {f : α → Except PyErr β} {b : β} :
    eBind e f = .ok b ↔ ∃ a, e = .ok a ∧ f a = .ok b := by
  cases e <;> simp [eBind]

@[simp] theorem eBind_pure {α β : Type} (a : α) (f : α → Except PyErr β) :
    eBind (.ok a) f = f a := rfl

@[simp] theorem eBind_err {α β : Type} (e : PyErr) (f : α → Except PyErr β) :
    eBind (.error e : Except PyErr α) f = .error e := rfl

/-- A `for` loop over a list that can raise: used for the line loops of
`hkpff.readhk` and the metadata loop of `datapff.readpff`. -/
def foldE {σ α : Type} (f : σ → α → Except PyErr σ) : σ → List α → Except PyErr σ
  | s, [] => .ok s
  | s, a :: rest =>
    match f s a with
    | .ok s' => foldE f s' rest
    | .error e => .error e

@[simp] theorem foldE_nil {σ α : Type} (f : σ → α → Except PyErr σ) (s : σ) :
    foldE f s [] = .ok s := rfl

theorem foldE_cons {σ α : Type} (f : σ → α → Except PyErr σ) (s : σ) (a : α) (l : List α) :
    foldE f s (a :: l) = eBind (f s a) (fun s' => foldE f s' l) := by
  cases h : f s a <;> simp [foldE, h, eBind]

theorem foldE_append {σ α : Type} (f : σ → α → Except PyErr σ) (s : σ) (l₁ l₂ : List α) :
    foldE f s (l₁ ++ l₂) = eBind (foldE f s l₁) (fun s' => foldE f s' l₂) := by
  induction l₁ generalizing s with
  | nil => simp
  | cons a l ih =>
    simp only [List.cons_append, foldE_cons, ih]
    cases f s a <;> simp

/-- Python list indexing `l[i]` for `i ≥ 0`: raises `IndexError` when out of range. -/
def listIdx {α : Type} (l : List α) (i : Nat) : Except PyErr α :=
  match l.get? i with
  | some a => .ok a
  | none => .error .indexError

theorem listIdx_ok_iff {α : Type} {l : List α} {i : Nat} {a : α} :
    listIdx l i = .ok a ↔ l.get? i = some a := by
  unfold listIdx
  cases l.get? i <;> simp

/-- Python `str.split(sep)` for a one-character separator: keeps empty pieces,
`"".split(sep) = [""]`. -/
def pysplit (sep : Char) : List Char → List (List Char)
  | [] => [[]]
  | ch :: rest =>
    if ch = sep then
      [] :: pysplit sep rest
    else
      match pysplit sep rest with
      | [] => [[ch]]
      | l :: ls => (ch :: l) :: ls

theorem pysplit_ne_nil (sep : Char) (l : List Char) : pysplit sep l ≠ [] := by
  induction l with
  | nil => simp [pysplit]
  | cons ch rest ih =>
    unfold pysplit
    split
    · simp
    · cases h : pysplit sep rest <;> simp

theorem pysplit_no_sep (sep : Char) (l : List Char) (hs : sep ∉ l) : pysplit sep l = [l] := by
  induction l with
  | nil => rfl
  | cons ch rest ih =>
    have hch : ch ≠ sep := fun h => hs (h ▸ List.mem_cons_self ch rest)
    have hrest : sep ∉ rest := fun h => hs (List.mem_cons_of_mem ch h)
    unfold pysplit
    rw [if_neg hch, ih hrest]

theorem pysplit_append (sep : Char) (a b : List Char) (ha : sep ∉ a) :
    pysplit sep (a ++ sep :: b) = a :: pysplit sep b := by
  induction a with
  | nil => simp [pysplit]
  | cons ch rest ih =>
    have hch : ch ≠ sep := fun h => ha (h ▸ List.mem_cons_self ch rest)
    have hrest : sep ∉ rest := fun h => ha (List.mem_cons_of_mem ch h)
    rw [List.cons_append]
    conv_lhs => rw [pysplit]
    rw [if_neg hch, ih hrest]

theorem pysplit_mem_no_sep (sep : Char) (l : List Char) (p : List Char)
    (hp : p ∈ pysplit sep l) : sep ∉ p := by
  induction l generalizing p with
  | nil =>
    simp [pysplit] at hp
    simp [hp]
  | cons ch rest ih =>
    unfold pysplit at hp
    split at hp
    · rcases List.mem_cons.mp hp with h | h
      · simp [h]
      · exact ih p h
    · rename_i hch
      rcases hps : pysplit sep rest with _ | ⟨hd, tl⟩
      · exact absurd hps (pysplit_ne_nil sep rest)
      · rw [hps] at hp
        rcases List.mem_cons.mp hp with h | h
        · subst h
          intro hmem
          rcases List.mem_cons.mp hmem with h' | h'
          · exact hch h'.symm
          · exact ih hd (hps ▸ List.mem_cons_self hd tl) h'
        · exact ih p (hps ▸ List.mem_cons_of_mem hd h)

theorem pysplit_mem_sub (sep : Char) (l : List Char) (p : List Char)
    (hp : p ∈ pysplit sep l) : ∀ x ∈ p, x ∈ l := by
  induction l generalizing p with
  | nil =>
    simp [pysplit] at hp
    simp [hp]
  | cons ch rest ih =>
    unfold pysplit at hp
    split at hp
    · rcases List.mem_cons.mp hp with h | h
      · simp [h]
      · exact fun x hx => List.mem_cons_of_mem ch (ih p h x hx)
    · rcases hps : pysplit sep rest with _ | ⟨hd, tl⟩
      · exact absurd hps (pysplit_ne_nil sep rest)
      · rw [hps] at hp
        rcases List.mem_cons.mp hp with h | h
        · subst h
          intro x hx
          rcases List.mem_cons.mp hx with h' | h'
          · exact h' ▸ List.mem_cons_self ch rest
          · exact List.mem_cons_of_mem ch (ih hd (hps ▸ List.mem_cons_self hd tl) x h')
        · exact fun x hx =>
            List.mem_cons_of_mem ch (ih p (hps ▸ List.mem_cons_of_mem hd h) x hx)

/-- Decimal digit value of a character. -/
def digVal (c : Char) : Nat := c.toNat - 48

/-- Is `c` one of `'0'..'9'`? -/
def isDig (c : Char) : Prop := 48 ≤ c.toNat ∧ c.toNat ≤ 57

instance (c : Char) : Decidable (isDig c) := by unfold isDig; infer_instance

/-- The character of a decimal digit. -/
def digitChar (d : Nat) : Char := Char.ofNat (48 + d)

theorem digVal_digitChar {d : Nat} (hd : d < 10) : digVal (digitChar d) = d := by
  interval_cases d <;> decide

theorem isDig_digitChar {d : Nat} (hd : d < 10) : isDig (digitChar d) := by
  interval_cases d <;> decide

theorem digitChar_ne {d : Nat} (hd : d < 10) :
    digitChar d ≠ '.' ∧ digitChar d ≠ '_' ∧ digitChar d ≠ '-' ∧ digitChar d ≠ '+' := by
  interval_cases d <;> decide

/-- Decimal digits of `n`, least significant first. -/
def natDigitsRev (n : Nat) : List Nat :=
  if h : n < 10 then [n] else n % 10 :: natDigitsRev (n / 10)
termination_by n
decreasing_by
  exact Nat.div_lt_self (by omega) (by omega)

theorem natDigitsRev_ne_nil (n : Nat) : natDigitsRev n ≠ [] := by
  unfold natDigitsRev
  split <;> simp

theorem natDigitsRev_lt (n : Nat) : ∀ d ∈ natDigitsRev n, d < 10 := by
  induction n using Nat.strong_induction_on with
  | _ n ih =>
    unfold natDigitsRev
    split
    · rename_i h
      intro d hd
      simp at hd
      omega
    · rename_i h
      intro d hd
      rcases List.mem_cons.mp hd with h' | h'
      · omega
      · exact ih (n / 10) (Nat.div_lt_self (by omega) (by omega)) d h'

theorem foldl_digits (n : Nat) : ∀ acc : Nat,
    List.foldl (fun a d => a * 10 + d) acc (natDigitsRev n).reverse =
      acc * 10 ^ (natDigitsRev n).length + n := by
  induction n using Nat.strong_induction_on with
  | _ n ih =>
    intro acc
    unfold natDigitsRev
    split
    · simp
    · rename_i h
      rw [List.reverse_cons, List.foldl_append,
        ih (n / 10) (Nat.div_lt_self (by omega) (by omega)) acc]
      simp [List.length_cons]
      rw [Nat.pow_succ]
      have := Nat.div_add_mod n 10
      ring_nf
      omega

/-- The decimal rendering of a natural number, as produced by Python `str(n)`. -/
def renderNat (n : Nat) : List Char := (natDigitsRev n).reverse.map digitChar

theorem renderNat_ne_nil (n : Nat) : renderNat n ≠ [] := by
  unfold renderNat
  intro h
  exact natDigitsRev_ne_nil n (by simpa using h)

theorem renderNat_chars (n : Nat) : ∀ c ∈ renderNat n, isDig c := by
  intro c hc
  rcases List.mem_map.mp hc with ⟨d, hd, rfl⟩
  exact isDig_digitChar (natDigitsRev_lt n d (List.mem_reverse.mp hd))

/-- Python `int(s)` restricted to an optional sign followed by decimal digits
(`int` also strips whitespace and allows `_` separators; the filenames of the
claims never use those). `none` models the `ValueError` that `int` raises. -/
def pyIntDigits (l : List Char) : Option Nat :=
  if l ≠ [] ∧ ∀ c ∈ l, isDig c then
    some (List.foldl (fun a c => a * 10 + digVal c) 0 l)
  else
    none

def pyInt (l : List Char) : Option Int :=
  match l with
  | [] => none
  | c :: rest =>
    if c = '-' then (pyIntDigits rest).map (fun k : Nat => -(k : Int))
    else if c = '+' then (pyIntDigits rest).map (fun k : Nat => (k : Int))
    else (pyIntDigits l).map (fun k : Nat => (k : Int))

theorem foldl_digVal (ds : List Nat) (hds : ∀ d ∈ ds, d < 10) : ∀ acc : Nat,
    List.foldl (fun a c => a * 10 + digVal c) acc (ds.map digitChar) =
      List.foldl (fun a d => a * 10 + d) acc ds := by
  induction ds with
  | nil => intro acc; rfl
  | cons d ds ih =>
    intro acc
    simp only [List.map_cons, List.foldl_cons]
    rw [digVal_digitChar (hds d (List.mem_cons_self d ds))]
    exact ih (fun d' hd' => hds d' (List.mem_cons_of_mem d hd')) _

theorem pyIntDigits_renderNat (n : Nat) : pyIntDigits (renderNat n) = some n := by
  unfold pyIntDigits
  rw [if_pos ⟨renderNat_ne_nil n, renderNat_chars n⟩]
  unfold renderNat
  rw [foldl_digVal _ (fun d hd => natDigitsRev_lt n d (List.mem_reverse.mp hd)),
    foldl_digits n 0]
  simp

/-- Python `str(n)` for an integer. -/
def renderInt (n : Int) : List Char :=
  if n < 0 then '-' :: renderNat n.natAbs else renderNat n.toNat

theorem renderInt_chars (n : Int) :
    ∀ c ∈ renderInt n, c = '-' ∨ isDig c := by
  intro c hc
  unfold renderInt at hc
  split at hc
  · rcases List.mem_cons.mp hc with h | h
    · exact Or.inl h
    · exact Or.inr (renderNat_chars _ c h)
  · exact Or.inr (renderNat_chars _ c hc)

theorem pyInt_renderInt (n : Int) : pyInt (renderInt n) = some n := by
  unfold renderInt
  split
  · rename_i h
    simp only [pyInt, if_pos rfl, if_true]
    rw [pyIntDigits_renderNat]
    simp only [Option.map_some', Option.some.injEq]
    rw [Int.natCast_natAbs, abs_of_neg h, neg_neg]
  · rename_i h
    rcases hr : renderNat n.toNat with _ | ⟨c, rest⟩
    · exact absurd hr (renderNat_ne_nil _)
    · have hc : isDig c := by
        have := renderNat_chars n.toNat c (hr ▸ List.mem_cons_self c rest)
        exact this
      have hcm : c ≠ '-' := by
        intro hcontra
        subst hcontra
        rcases hc with ⟨h1, h2⟩
        revert h1 h2
        decide
      have hcp : c ≠ '+' := by
        intro hcontra
        subst hcontra
        rcases hc with ⟨h1, h2⟩
        revert h1 h2
        decide
      simp only [pyInt, if_neg hcm, if_neg hcp]
      rw [← hr, pyIntDigits_renderNat]
      simp only [Option.map_some', Option.some.injEq]
      omega

/-- A Python `datetime.datetime` (only the fields the filename format uses). -/
structure PyDateTime where
  year : Nat
  month : Nat
  day : Nat
  hour : Nat
  minute : Nat
  second : Nat
deriving DecidableEq, Repr

/-- `datetime.strptime(s, "%Y-%m-%dT%H:%M:%SZ")`, restricted to the canonical
zero-padded rendering of that format (which is what the filename schema
prescribes bit-exactly).  Returns `none` where `strptime` raises `ValueError`.
Calendar-level day validation (days per month) is not modelled; all claims are
insensitive to it. -/
def tsVal (a b : Char) : Nat := digVal a * 10 + digVal b

def tsYear (a b c d : Char) : Nat :=
  digVal a * 1000 + digVal b * 100 + digVal c * 10 + digVal d

def parseTimestamp (l : List Char) : Option PyDateTime :=
  match l with
  | [y1, y2, y3, y4, s1, m1, m2, s2, d1, d2, s3, h1, h2, s4, n1, n2, s5, c1, c2, s6] =>
    if s1 = '-' ∧ s2 = '-' ∧ s3 = 'T' ∧ s4 = ':' ∧ s5 = ':' ∧ s6 = 'Z' ∧
        isDig y1 ∧ isDig y2 ∧ isDig y3 ∧ isDig y4 ∧ isDig m1 ∧ isDig m2 ∧
        isDig d1 ∧ isDig d2 ∧ isDig h1 ∧ isDig h2 ∧ isDig n1 ∧ isDig n2 ∧
        isDig c1 ∧ isDig c2 ∧
        1 ≤ tsYear y1 y2 y3 y4 ∧
        1 ≤ tsVal m1 m2 ∧ tsVal m1 m2 ≤ 12 ∧ 1 ≤ tsVal d1 d2 ∧ tsVal d1 d2 ≤ 31 ∧
        tsVal h1 h2 ≤ 23 ∧ tsVal n1 n2 ≤ 59 ∧ tsVal c1 c2 ≤ 59 then
      some ⟨tsYear y1 y2 y3 y4, tsVal m1 m2, tsVal d1 d2, tsVal h1 h2,
        tsVal n1 n2, tsVal c1 c2⟩
    else
      none
  | _ => none

/-- `strftime("%Y-%m-%dT%H:%M:%SZ")`: two zero-padded digits. -/
def pad2 (n : Nat) : List Char := [digitChar (n / 10 % 10), digitChar (n % 10)]

/-- `strftime("%Y-%m-%dT%H:%M:%SZ")`: four zero-padded digits. -/
def pad4 (n : Nat) : List Char :=
  [digitChar (n / 1000 % 10), digitChar (n / 100 % 10), digitChar (n / 10 % 10),
    digitChar (n % 10)]

/-- Modelled from the spec: the timestamp rendering
`%Y-%m-%dT%H:%M:%SZ` used when a filename is reconstructed from parsed fields
(the repository contains no writer; the spec fixes this format bit-exactly). -/
def fmtTs (t : PyDateTime) : List Char :=
  pad4 t.year ++ '-' :: pad2 t.month ++ '-' :: pad2 t.day ++ 'T' :: pad2 t.hour ++
    ':' :: pad2 t.minute ++ ':' :: pad2 t.second ++ ['Z']

theorem parseTimestamp_cons (y1 y2 y3 y4 s1 m1 m2 s2 d1 d2 s3 h1 h2 s4 n1 n2 s5 c1 c2 s6 :
    Char) :
    parseTimestamp [y1, y2, y3, y4, s1, m1, m2, s2, d1, d2, s3, h1, h2, s4, n1, n2, s5,
        c1, c2, s6] =
      if s1 = '-' ∧ s2 = '-' ∧ s3 = 'T' ∧ s4 = ':' ∧ s5 = ':' ∧ s6 = 'Z' ∧
          isDig y1 ∧ isDig y2 ∧ isDig y3 ∧ isDig y4 ∧ isDig m1 ∧ isDig m2 ∧
          isDig d1 ∧ isDig d2 ∧ isDig h1 ∧ isDig h2 ∧ isDig n1 ∧ isDig n2 ∧
          isDig c1 ∧ isDig c2 ∧
          1 ≤ tsYear y1 y2 y3 y4 ∧
          1 ≤ tsVal m1 m2 ∧ tsVal m1 m2 ≤ 12 ∧ 1 ≤ tsVal d1 d2 ∧ tsVal d1 d2 ≤ 31 ∧
          tsVal h1 h2 ≤ 23 ∧ tsVal n1 n2 ≤ 59 ∧ tsVal c1 c2 ≤ 59 then
        some ⟨tsYear y1 y2 y3 y4, tsVal m1 m2, tsVal d1 d2, tsVal h1 h2,
          tsVal n1 n2, tsVal c1 c2⟩
      else
        none := rfl

theorem parseTimestamp_ranges {l : List Char} {t : PyDateTime}
    (h : parseTimestamp l = some t) :
    1 ≤ t.year ∧ t.year ≤ 9999 ∧ 1 ≤ t.month ∧ t.month ≤ 12 ∧ 1 ≤ t.day ∧ t.day ≤ 31 ∧
      t.hour ≤ 23 ∧ t.minute ≤ 59 ∧ t.second ≤ 59 := by
  unfold parseTimestamp at h
  split at h
  · split at h
    · rename_i hc
      injection h with h
      subst h
      obtain ⟨-, -, -, -, -, -, hy1, hy2, hy3, hy4, -, -, -, -, -, -, -, -, -, -,
        r1, r2, r3, r4, r5, r6, r7, r8⟩ := hc
      unfold isDig at hy1 hy2 hy3 hy4
      refine ⟨r1, ?_, r2, r3, r4, r5, r6, r7, r8⟩
      show tsYear _ _ _ _ ≤ 9999
      unfold tsYear digVal
      omega
    · exact absurd h (by simp)
  · exact absurd h (by simp)

theorem fmtTs_chars (t : PyDateTime) :
    ∀ c ∈ fmtTs t, c = '-' ∨ c = 'T' ∨ c = ':' ∨ c = 'Z' ∨ isDig c := by
  intro c hc
  unfold fmtTs pad4 pad2 at hc
  simp only [List.cons_append, List.nil_append, List.mem_cons, List.not_mem_nil,
    or_false] at hc
  rcases hc with h | h | h | h | h | h | h | h | h | h | h | h | h | h | h | h | h | h | h | h
  all_goals first
    | (subst h; right; right; right; right; exact isDig_digitChar (Nat.mod_lt _ (by omega)))
    | (subst h; simp)

theorem parseTimestamp_fmtTs {t : PyDateTime}
    (hy1 : 1 ≤ t.year) (hy : t.year ≤ 9999) (hm1 : 1 ≤ t.month) (hm : t.month ≤ 12)
    (hd1 : 1 ≤ t.day) (hd : t.day ≤ 31) (hh : t.hour ≤ 23) (hn : t.minute ≤ 59)
    (hs : t.second ≤ 59) :
    parseTimestamp (fmtTs t) = some t := by
  have hdig : ∀ k : Nat, isDig (digitChar (k % 10)) :=
    fun k => isDig_digitChar (Nat.mod_lt _ (by omega))
  have hv : ∀ k : Nat, digVal (digitChar (k % 10)) = k % 10 :=
    fun k => digVal_digitChar (Nat.mod_lt _ (by omega))
  have hyv : tsYear (digitChar (t.year / 1000 % 10)) (digitChar (t.year / 100 % 10))
      (digitChar (t.year / 10 % 10)) (digitChar (t.year % 10)) = t.year := by
    unfold tsYear
    rw [hv, hv, hv, hv]
    omega
  have h2v : ∀ k : Nat, k ≤ 99 →
      tsVal (digitChar (k / 10 % 10)) (digitChar (k % 10)) = k := by
    intro k hk
    unfold tsVal
    rw [hv, hv]
    omega
  show parseTimestamp
      [digitChar (t.year / 1000 % 10), digitChar (t.year / 100 % 10),
        digitChar (t.year / 10 % 10), digitChar (t.year % 10), '-',
        digitChar (t.month / 10 % 10), digitChar (t.month % 10), '-',
        digitChar (t.day / 10 % 10), digitChar (t.day % 10), 'T',
        digitChar (t.hour / 10 % 10), digitChar (t.hour % 10), ':',
        digitChar (t.minute / 10 % 10), digitChar (t.minute % 10), ':',
        digitChar (t.second / 10 % 10), digitChar (t.second % 10), 'Z'] = some t
  rw [parseTimestamp_cons]
  rw [if_pos]
  · rw [hyv, h2v _ (by omega), h2v _ (by omega), h2v _ (by omega), h2v _ (by omega),
      h2v _ (by omega)]
  · refine ⟨rfl, rfl, rfl, rfl, rfl, rfl, hdig _, hdig _, hdig _, hdig _, hdig _,
      hdig _, hdig _, hdig _, hdig _, hdig _, hdig _, hdig _, hdig _, hdig _, ?_, ?_, ?_,
      ?_, ?_, ?_, ?_, ?_⟩
    · rw [hyv]; omega
    · rw [h2v _ (by omega)]; omega
    · rw [h2v _ (by omega)]; omega
    · rw [h2v _ (by omega)]; omega
    · rw [h2v _ (by omega)]; omega
    · rw [h2v _ (by omega)]; omega
    · rw [h2v _ (by omega)]; omega
    · rw [h2v _ (by omega)]; omega

/-- numpy element types used in `datapff.__init__`. -/
inductive Dtype where
  | int16
  | uint16
  | uint8
deriving DecidableEq, Repr

/-- The state of a `datapff` object right after `__init__`.
`dtpye` models the misspelled attribute assigned on the `img16` branch of the
source; `dtype = none` models the real `dtype` attribute being absent. -/
structure Datapff where
  fn : List Char
  startdt : PyDateTime
  dp : List Char
  bpp : Int
  module : Int
  seqno : Int
  md_size : Int
  pixels : Int
  d_size : Int
  datasize : Int
  dtype : Option Dtype
  dtpye : Option Dtype
deriving DecidableEq, Repr

/-- The straight-line field assignments of `datapff.__init__` after the
filename has been parsed (lines 97–114 of `io.py`). -/
def mkDatapff (fn : List Char) (startdt : PyDateTime) (dp : List Char)
    (bpp moduleNo seqno : Int) : Datapff :=
  let ms : Int := if dp = "ph256".toList then 124 else 492
  let px : Int := if dp = "ph256".toList then 256 else 1024
  let ds : Int := px * bpp
  { fn := fn
    startdt := startdt
    dp := dp
    bpp := bpp
    module := moduleNo
    seqno := seqno
    md_size := ms
    pixels := px
    d_size := ds
    datasize := ms + ds
    dtype :=
      if dp = "ph256".toList ∨ dp = "ph1024".toList then some .int16
      else if dp = "img16".toList then none
      else some .uint8
    dtpye := if dp = "img16".toList then some .uint16 else none }

/-- `datetime.strptime` lifted to the `Except` monad (raises `ValueError`). -/
def pyStrptime (l : List Char) : Except PyErr PyDateTime :=
  match parseTimestamp l with
  | some t => .ok t
  | none => .error .valueError

theorem pyStrptime_ok_iff {l : List Char} {t : PyDateTime} :
    pyStrptime l = .ok t ↔ parseTimestamp l = some t := by
  unfold pyStrptime
  cases parseTimestamp l <;> simp

/-- `int(s)` lifted to the `Except` monad (raises `ValueError`). -/
def pyIntE (l : List Char) : Except PyErr Int :=
  match pyInt l with
  | some n => .ok n
  | none => .error .valueError

theorem pyIntE_ok_iff {l : List Char} {n : Int} :
    pyIntE l = .ok n ↔ pyInt l = some n := by
  unfold pyIntE
  cases pyInt l <;> simp

/-- The filename parsing of `datapff.__init__` (lines 90–96 of `io.py`):
`info = fn.split('.')`, then for each field `info[i].split('_')[1]`,
with `strptime` on the timestamp and `int()` on the numeric fields. -/
def parseFnFields (fn : List Char) :
    Except PyErr (PyDateTime × List Char × Int × Int × Int) :=
  eBind (listIdx (pysplit '.' fn) 0) fun p0 =>
  eBind (listIdx (pysplit '_' p0) 1) fun tsStr =>
  eBind (pyStrptime tsStr) fun startdt =>
  eBind (listIdx (pysplit '.' fn) 1) fun p1 =>
  eBind (listIdx (pysplit '_' p1) 1) fun dp =>
  eBind (listIdx (pysplit '.' fn) 2) fun p2 =>
  eBind (listIdx (pysplit '_' p2) 1) fun bppStr =>
  eBind (pyIntE bppStr) fun bpp =>
  eBind (listIdx (pysplit '.' fn) 3) fun p3 =>
  eBind (listIdx (pysplit '_' p3) 1) fun moduleStr =>
  eBind (pyIntE moduleStr) fun moduleNo =>
  eBind (listIdx (pysplit '.' fn) 4) fun p4 =>
  eBind (listIdx (pysplit '_' p4) 1) fun seqnoStr =>
  eBind (pyIntE seqnoStr) fun seqno =>
  .ok (startdt, dp, bpp, moduleNo, seqno)

/-- `datapff.__init__` (lines 82–114 of `io.py`). -/
def datapffInit (fn : List Char) : Except PyErr Datapff :=
  eBind (parseFnFields fn) fun f =>
  .ok (mkDatapff fn f.1 f.2.1 f.2.2.1 f.2.2.2.1 f.2.2.2.2)

theorem datapffInit_ok_iff {fn : List Char} {d : Datapff} :
    datapffInit fn = .ok d ↔
      ∃ t dp bpp moduleNo seqno,
        parseFnFields fn = .ok (t, dp, bpp, moduleNo, seqno) ∧
        d = mkDatapff fn t dp bpp moduleNo seqno := by
  unfold datapffInit
  constructor
  · intro h
    rcases eBind_ok_iff.mp h with ⟨⟨t, dp, bpp, mo, sq⟩, hp, hd⟩
    injection hd with hd
    exact ⟨t, dp, bpp, mo, sq, hp, hd.symm⟩
  · rintro ⟨t, dp, bpp, mo, sq, hp, rfl⟩
    rw [hp]
    rfl

/-- Two's-complement value of a little-endian byte pair, as `np.int16` sees it. -/
def toI16 (lo hi : Nat) : Int :=
  let u := lo % 256 + 256 * (hi % 256)
  if u < 32768 then (u : Int) else (u : Int) - 65536

/-- Unsigned value of a little-endian byte pair, as `np.uint16` sees it. -/
def toU16 (lo hi : Nat) : Int := (lo % 256 + 256 * (hi % 256) : Nat)

/-- `np.frombuffer(bytes, dtype)`: reinterpret a byte string as an element
array; raises `ValueError` (modelled as `none`) when the byte count is not a
multiple of the element size. -/
def frombuffer : Dtype → List Nat → Option (List Int)
  | .uint8, bs => some (bs.map (fun b => ((b % 256 : Nat) : Int)))
  | .int16, [] => some []
  | .int16, lo :: hi :: rest => (frombuffer .int16 rest).map (toI16 lo hi :: ·)
  | .int16, [_] => none
  | .uint16, [] => some []
  | .uint16, lo :: hi :: rest => (frombuffer .uint16 rest).map (toU16 lo hi :: ·)
  | .uint16, [_] => none

/-- Little-endian bytes of one element, as `ndarray.tobytes()` produces them. -/
def elemBytes : Dtype → Int → List Nat
  | .uint8, v => [(v % 256).toNat]
  | .int16, v => [(v % 65536).toNat % 256, (v % 65536).toNat / 256]
  | .uint16, v => [(v % 65536).toNat % 256, (v % 65536).toNat / 256]

/-- `ndarray.tobytes()` of a 1-D slice. -/
def toBytes (dt : Dtype) (row : List Int) : List Nat := (row.map (elemBytes dt)).flatten

/-- `n` consecutive chunks of `cols` elements (the rows of `reshape (-1, cols)`). -/
def chunkN : Nat → Nat → List Int → List (List Int)
  | 0, _, _ => []
  | n + 1, cols, l => l.take cols :: chunkN n cols (l.drop cols)

/-- `tmp.shape = (-1, cols)`: numpy raises `ValueError` (modelled `none`) when
`cols = 0` or the length is not a multiple of `cols`. -/
def reshapeRows (cols : Nat) (l : List Int) : Option (List (List Int)) :=
  if cols ≠ 0 ∧ l.length % cols = 0 then some (chunkN (l.length / cols) cols l) else none

/-- `bytes.splitlines()` on the tail of a non-empty byte string: splits at
`\n` (10), `\r` (13) and `\r\n`; a trailing terminator adds no empty line. -/
def slAux (cur : List Nat) : List Nat → List (List Nat)
  | [] => [cur.reverse]
  | 13 :: 10 :: rest => cur.reverse :: (if rest.isEmpty then [] else slAux [] rest)
  | 13 :: rest => cur.reverse :: (if rest.isEmpty then [] else slAux [] rest)
  | 10 :: rest => cur.reverse :: (if rest.isEmpty then [] else slAux [] rest)
  | b :: rest => slAux (b :: cur) rest

/-- `bytes.splitlines()`. -/
def splitlinesB (bs : List Nat) : List (List Nat) :=
  if bs.isEmpty then [] else slAux [] bs

/-- The two canonical renames of `_gen_dict_template` and `hkpff.readhk`:
`TEMP1 ↦ DET_TEMP`, `TEMP2 ↦ FPGA_TEMP` (lines 17–20 and 60–63 of `io.py`). -/
def renameKey (k : String) : String :=
  if k = "TEMP1" then "DET_TEMP" else if k = "TEMP2" then "FPGA_TEMP" else k

theorem renameKey_idem (k : String) : renameKey (renameKey k) = renameKey k := by
  unfold renameKey
  by_cases h1 : k = "TEMP1"
  · simp [h1]
  · by_cases h2 : k = "TEMP2"
    · simp [h1, h2]
    · simp [h1, h2]

/-- First-match lookup in an insertion-ordered dict. -/
def lookupA {V : Type} (info : List (String × V)) (k : String) : Option V :=
  match info with
  | [] => none
  | (k', v) :: rest => if k' = k then some v else lookupA rest k

/-- `_gen_dict_template` (lines 13–22 of `io.py`): a dict with the (renamed)
keys of `d` mapped to fresh empty lists; a Python dict keeps the first
insertion position of a key. -/
def mkTemplate {V : Type} (fs : List (String × V)) : List (String × List V) :=
  fs.foldl
    (fun t p =>
      if (lookupA t (renameKey p.1)).isSome then t else t ++ [(renameKey p.1, [])])
    []

/-- `dict[k].append(v)` on an insertion-ordered dict: `none` when `k` is
absent (Python raises `KeyError`). -/
def assocAppend {V : Type} : List (String × List V) → String → V →
    Option (List (String × List V))
  | [], _, _ => none
  | (k', l) :: rest, k, v =>
    if k' = k then some ((k', l ++ [v]) :: rest)
    else (assocAppend rest k v).map ((k', l) :: ·)

/-- The per-record field loop shared by `hkpff.readhk` (lines 58–72, with
`keyOf = renameKey`) and the metadata loop of `datapff.readpff` (lines
157–158, with `keyOf = id`): append each field value to the accumulated dict,
raising `KeyError` for a field whose (mapped) name is absent. `conv` is the
per-value decode (`int` / `float` / raw fallback for `readhk`, the identity
for `readpff`); it never fails when the key exists, because the final
`append(v)` fallback of the source cannot raise. -/
def appendFieldsW {V : Type} (keyOf : String → String) (conv : V → V) :
    List (String × List V) → List (String × V) → Except PyErr (List (String × List V))
  | st, [] => .ok st
  | st, (k, v) :: rest =>
    match assocAppend st (keyOf k) (conv v) with
    | some st' => appendFieldsW keyOf conv st' rest
    | none => .error (.keyError (keyOf k))

/-- One metadata line of `datapff.readpff` (lines 152–158): `json.loads`
(raising `ValueError` on a line that fails to parse — not caught there),
template creation when the accumulated dict is still empty, then the field
loop without any rename. `jl` is the external `json.loads` composed with
UTF-8 decoding. -/
def mdProcessLine {V : Type} (jl : List Nat → Option (List (String × V)))
    (st : List (String × List V)) (line : List Nat) :
    Except PyErr (List (String × List V)) :=
  match jl line with
  | none => .error .valueError
  | some md =>
    let st' := if st.isEmpty then mkTemplate md else st
    appendFieldsW id id st' md

/-- The metadata loop of `datapff.readpff` over all decoded lines. -/
def mdFold {V : Type} (jl : List Nat → Option (List (String × V)))
    (st : List (String × List V)) (lines : List (List Nat)) :
    Except PyErr (List (String × List V)) :=
  foldE (mdProcessLine jl) st lines

/-- The external collaborators of `datapff.readpff`: `json.loads` (stdlib)
and the two `pixelmap` lookups. Modelled from the spec: the `pixelmap`
module is not part of this repository's sources; the spec describes its two
functions as pure lookups `(module, hw_version, index) → index`, so they are
arbitrary pure function parameters here. -/
structure PffExt (V : Type) where
  jsonLoads : List Nat → Option (List (String × V))
  getPixelLoc : Int → String → Int → Int
  getDataIndex : Int → String → Int → Int

/-- The `pixel` argument of `datapff.readpff`: `-1` (all), a plain channel
index, or a `[row, col]` pair. -/
inductive PixelSel where
  | all
  | idx (i : Int)
  | pair (row col : Int)
deriving DecidableEq, Repr

/-- The value of `self.data` returned by `readpff`: a 2-D table, or the 1-D
column that pixel projection produces. -/
inductive PffData where
  | d2 (rows : List (List Int))
  | d1 (col : List Int)
deriving DecidableEq, Repr

/-- Resolution of a (possibly negative) Python index against length `n`. -/
def pyIdx (n : Nat) (i : Int) : Int := if i < 0 then i + n else i

/-- Python/numpy indexing `row[i]` with negative-index wrap-around;
`IndexError` when out of range. -/
def pyGet (row : List Int) (i : Int) : Except PyErr Int :=
  if 0 ≤ pyIdx row.length i ∧ pyIdx row.length i < (row.length : Int) then
    .ok (row.getD (pyIdx row.length i).toNat 0)
  else
    .error .indexError

/-- `self.data[:, i]`: one element per row. -/
def pyCol (rows : List (List Int)) (i : Int) : Except PyErr (List Int) :=
  match rows with
  | [] => .ok []
  | r :: rest => eBind (pyGet r i) fun x => eBind (pyCol rest i) fun xs => .ok (x :: xs)

/-- `QUABO_DIM` (line 10 of `io.py`). -/
def QUABO_DIM : Int := 16

/-- Lines 138–159 of `datapff.readpff`, before pixel projection, for one call
on a freshly constructed object. For `samples ≠ -1` the source evaluates
`f.read(samples*self.datasize/self.bpp)`: `/` is Python 3 true division, so
the argument is a `float` and `BufferedReader.read` raises `TypeError`
unconditionally; the `skip` parameter is accepted but never used. For
`self.dp ≠ 'ph256'` no branch assigns `self.data`, so the final
`return self.data` (or the projection `self.data[:, ind]`) raises
`AttributeError`. The slice `tmp[:, 0:int(md_size/bpp)-1]` is `0:-1` when
`int(md_size/bpp) = 0`, hence the two-way `keep`. -/
def optE {α : Type} (e : PyErr) : Option α → Except PyErr α
  | some a => .ok a
  | none => .error e

@[simp] theorem optE_some {α : Type} (e : PyErr) (a : α) : optE e (some a) = .ok a := rfl

@[simp] theorem optE_none {α : Type} (e : PyErr) : optE e (none : Option α) = .error e := rfl

/-- The slice `tmp[:, 0:int(md_size/bpp)-1]` of one row: `0:-1` (all but the
last element) when `int(md_size/bpp) = 0`, else the first `mdCols - 1`
elements. -/
def mdKeep (mdCols : Nat) (r : List Int) : List Int :=
  if mdCols = 0 then r.take (r.length - 1) else r.take (mdCols - 1)

/-- The metadata phase of `readpff` (lines 148–158): slice the metadata
columns of every record, go back to bytes, split lines, decode and
accumulate. -/
def mdPhase {V : Type} (ext : PffExt V) (dt : Dtype) (mdCols : Nat)
    (rows : List (List Int)) (wantMd : Bool) :
    Except PyErr (List (String × List V)) :=
  if wantMd then
    mdFold ext.jsonLoads []
      (splitlinesB ((rows.map (fun r => toBytes dt (mdKeep mdCols r))).flatten))
  else
    .ok []

def readCore {V : Type} (ext : PffExt V) (d : Datapff) (file : List Nat)
    (samples skip : Int) (wantMd : Bool) :
    Except PyErr (List (List Int) × List (String × List V)) :=
  if d.dp = "ph256".toList then
    if samples = -1 then
      eBind (optE .attributeError d.dtype) fun dt =>
      eBind (optE .valueError (frombuffer dt file)) fun tmp =>
      eBind (optE .valueError (reshapeRows (Int.tdiv d.datasize d.bpp).toNat tmp)) fun rows =>
      eBind (mdPhase ext dt (Int.tdiv d.md_size d.bpp).toNat rows wantMd) fun md =>
      .ok (rows.map (fun r => r.drop (Int.tdiv d.md_size d.bpp).toNat), md)
    else
      .error .typeError
  else
    .error .attributeError

/-- `datapff.readpff` (lines 116–170 of `io.py`): the core read followed by
the optional pixel projection (lines 160–169), which resolves a `[row, col]`
pair through the two chained `pixelmap` lookups. -/
def readpff {V : Type} (ext : PffExt V) (d : Datapff) (file : List Nat)
    (samples skip : Int) (pixel : PixelSel) (quabo : Int) (ver : String)
    (wantMd : Bool) : Except PyErr (PffData × List (String × List V)) :=
  eBind (readCore ext d file samples skip wantMd) fun r =>
  match pixel with
  | .all => .ok (.d2 r.1, r.2)
  | .idx i => eBind (pyCol r.1 i) fun c => .ok (.d1 c, r.2)
  | .pair row col =>
    let lin := row * QUABO_DIM + col
    let loc := ext.getPixelLoc quabo ver lin
    let ind := ext.getDataIndex quabo ver loc
    eBind (pyCol r.1 ind) fun c => .ok (.d1 c, r.2)

/-- One parsed housekeeping line: `none` when `json.loads` raised (the bare
`except: continue` of lines 49–52), otherwise the parsed top-level JSON
object as an ordered association list `{subsystem: {field: value}}`. -/
abbrev HkLine (V : Type) : Type := Option (List (String × List (String × V)))

/-- Update the value stored at `k` (first match) with a fallible function;
`KeyError` when `k` is absent. -/
def updateAt {V : Type} (info : List (String × V)) (k : String)
    (g : V → Except PyErr V) : Except PyErr (List (String × V)) :=
  match info with
  | [] => .error (.keyError k)
  | (k', v) :: rest =>
    if k' = k then eBind (g v) fun v' => .ok ((k', v') :: rest)
    else eBind (updateAt rest k g) fun rest' => .ok ((k', v) :: rest')

/-- One line of `hkpff.readhk` (lines 48–72): skip unparseable lines;
`key, = hk.keys()` raises `ValueError` unless the object has exactly one
top-level key; create the renamed template on first sight of a subsystem;
then run the field loop (with renames) on that subsystem's dict. -/
def processHkLine {V : Type} (conv : V → V)
    (st : List (String × List (String × List V))) (line : HkLine V) :
    Except PyErr (List (String × List (String × List V))) :=
  match line with
  | none => .ok st
  | some obj =>
    match obj with
    | [(key, fs)] =>
      let st' := if (lookupA st key).isSome then st else st ++ [(key, mkTemplate fs)]
      updateAt st' key (fun flds => appendFieldsW renameKey conv flds fs)
    | _ => .error .valueError

/-- `hkpff.readhk` (lines 39–73 of `io.py`) on a freshly constructed object
(`self.hk_info = {}`), over the parse results of the file's lines. -/
def readhk {V : Type} (conv : V → V) (lines : List (HkLine V)) :
    Except PyErr (List (String × List (String × List V))) :=
  foldE (processHkLine conv) [] lines

deriving instance DecidableEq for Except

theorem datapffInit_fields {fn : List Char} {d : Datapff}
    (h : datapffInit fn = .ok d) :
    d.md_size = (if d.dp = "ph256".toList then 124 else 492) ∧
    d.pixels = (if d.dp = "ph256".toList then 256 else 1024) ∧
    d.d_size = d.pixels * d.bpp ∧
    d.datasize = d.md_size + d.d_size ∧
    d.dtype = (if d.dp = "ph256".toList ∨ d.dp = "ph1024".toList then some .int16
      else if d.dp = "img16".toList then none else some .uint8) ∧
    d.dtpye = (if d.dp = "img16".toList then some .uint16 else none) := by
  rcases datapffInit_ok_iff.mp h with ⟨t, dp, bpp, mo, sq, hp, rfl⟩
  dsimp only [mkDatapff]
  exact ⟨rfl, rfl, rfl, rfl, rfl, rfl⟩

/-- A sample ph256 filename matching the schema, and the object its parse builds. -/
def fnPh256 : List Char := "start_2021-09-12T08:05:30Z.dp_ph256.bpp_2.module_1.seqno_0".toList

def dPh256 : Datapff := mkDatapff fnPh256 ⟨2021, 9, 12, 8, 5, 30⟩ "ph256".toList 2 1 0

/-- A sample img8 filename and its parsed object. -/
def fnImg8 : List Char := "start_2021-09-12T08:05:30Z.dp_img8.bpp_1.module_1.seqno_0".toList

def dImg8 : Datapff := mkDatapff fnImg8 ⟨2021, 9, 12, 8, 5, 30⟩ "img8".toList 1 1 0

/-- A sample img16 filename and its parsed object. -/
def fnImg16 : List Char := "start_2021-09-12T08:05:30Z.dp_img16.bpp_2.module_1.seqno_0".toList

/-- A filename whose format tag `foo` is not one of the four recognized tags. -/
def fnFoo : List Char := "start_2021-09-12T08:05:30Z.dp_foo.bpp_2.module_1.seqno_0".toList

def dFoo : Datapff := mkDatapff fnFoo ⟨2021, 9, 12, 8, 5, 30⟩ "foo".toList 2 1 0

/-- An external-collaborator record whose `json.loads` always fails and whose
pixel maps are constantly zero (no claim using it consults them). -/
def extU : PffExt Unit :=
  { jsonLoads := fun _ => none
    getPixelLoc := fun _ _ _ => 0
    getDataIndex := fun _ _ _ => 0 }

/-- C1: the claim says a Read on a well-formed file of any of the four
supported formats returns a (data, metadata) pair. The code only ever reads
`ph256` files: for the other three tags `readpff` assigns nothing to
`self.data` and `return self.data` raises `AttributeError`. Here a
well-formed one-record img8 file (492 + 1024 bytes) fails. -/
theorem c1_read_non_ph256_attribute_error :
    datapffInit fnImg8 = .ok dImg8 ∧
      readpff extU dImg8 (List.replicate 1516 0) (-1) 0 .all 0 "qfb" false =
        .error .attributeError := by
  constructor
  · decide
  · rfl

/-- C2 counterexample: constructing a decoder from a filename with the
unrecognized tag `foo` does not fail; it succeeds and silently derives the
1024-pixel layout (metadata size 492). -/
theorem c2_counterexample_unknown_tag_accepted :
    datapffInit fnFoo = .ok dFoo ∧ dFoo.md_size = 492 ∧ dFoo.pixels = 1024 := by
  refine ⟨by decide, by decide, by decide⟩

/-- C2 amended: constructing a decoder from a filename whose format tag is
not one of {ph256, ph1024, img16, img8} does not raise; the constructor
silently derives the 1024-pixel frame layout (metadata size 492, pixel count
1024) and the unsigned-8-bit sample dtype. -/
theorem c2_amended_unknown_tag_silent_default (fn : List Char) (d : Datapff)
    (h : datapffInit fn = .ok d)
    (h1 : d.dp ≠ "ph256".toList) (h2 : d.dp ≠ "ph1024".toList)
    (h3 : d.dp ≠ "img16".toList) (h4 : d.dp ≠ "img8".toList) :
    d.md_size = 492 ∧ d.pixels = 1024 ∧ d.datasize = 492 + 1024 * d.bpp ∧
      d.dtype = some .uint8 := by
  obtain ⟨hms, hpx, hds, hsz, hdt, -⟩ := datapffInit_fields h
  rw [if_neg h1] at hms hpx
  rw [if_neg (not_or.mpr ⟨h1, h2⟩), if_neg h3] at hdt
  refine ⟨hms, hpx, ?_, hdt⟩
  rw [hsz, hds, hms, hpx]

theorem c2_amended_witness :
    datapffInit fnFoo = .ok dFoo ∧
      dFoo.md_size = 492 ∧ dFoo.pixels = 1024 ∧ dFoo.datasize = 492 + 1024 * dFoo.bpp ∧
        dFoo.dtype = some .uint8 :=
  ⟨by decide,
    c2_amended_unknown_tag_silent_default fnFoo dFoo (by decide) (by decide) (by decide)
      (by decide) (by decide)⟩

/-- C3: the claim says `Read(skip=k, sample_count=m)` discards `k` records
and returns records `[k, k+m)`. In the source the `skip` argument is never
used, and for any `samples ≠ -1` the expression
`f.read(samples*self.datasize/self.bpp)` passes a Python `float` (true
division) to `read`, which raises `TypeError` unconditionally. Concretely:
a ph256 file of 3 complete records, `skip=1`, `samples=2`. -/
theorem c3_skip_samples_read_raises_type_error :
    datapffInit fnPh256 = .ok dPh256 ∧
      readpff extU dPh256 (List.replicate 1908 0) 2 1 .all 0 "qfb" false =
        .error .typeError := by
  constructor
  · decide
  · rfl

/-- C5: the claim says an img16 decoder has its sample dtype set to unsigned
16-bit. The source assigns `np.uint16` to the misspelled attribute
`self.dtpye` (line 111), so the real `dtype` attribute is never set for
img16 (modelled as `dtype = none`). -/
theorem c5_img16_dtype_typo :
    ∃ d, datapffInit fnImg16 = .ok d ∧ d.dtype = none ∧ d.dtpye = some .uint16 := by
  refine ⟨mkDatapff fnImg16 ⟨2021, 9, 12, 8, 5, 30⟩ "img16".toList 2 1 0, by decide,
    by decide, by decide⟩

/-- The third metadata line of the C4 record (fills the 122-byte block). -/
def lineC4c : List Nat := 3 :: List.replicate 117 0

/-- A parsed metadata JSON object with keys `TEMP1`, `TEMP2`, `X`. -/
def mdFieldsC4 : List (String × Unit) := [("TEMP1", ()), ("TEMP2", ()), ("X", ())]

/-- `json.loads` for the C4 record: each of its three metadata lines parses
to an object with keys `{TEMP1, TEMP2, X}`. -/
def jlC4 : List Nat → Option (List (String × Unit)) := fun bs =>
  if bs = [1] ∨ bs = [2] ∨ bs = lineC4c then some mdFieldsC4 else none

def extC4 : PffExt Unit :=
  { jsonLoads := jlC4
    getPixelLoc := fun _ _ _ => 0
    getDataIndex := fun _ _ _ => 0 }

/-- One complete 636-byte ph256 record: a 122-byte metadata block holding the
three lines `[1]`, `[2]`, `lineC4c` separated by `\n`, the 2 sentinel bytes
that the slice `0:61` drops, and 512 data bytes. -/
def fileC4 : List Nat :=
  [1, 10, 2, 10, 3] ++ List.replicate 117 0 ++ [42, 0] ++ List.replicate 512 0

/-- C4: the claim says decoding a ph256 record whose metadata holds 3 JSON
lines with keys {TEMP1, TEMP2, X} yields a mapping keyed
{DET_TEMP, FPGA_TEMP, X} with length-3 lists. The template built by
`_gen_dict_template` does hold the renamed keys, but the accumulation loop
of `readpff` (line 158) appends under the *original* key, so
`self.metadata['TEMP1']` raises `KeyError` on the very first line (compare
`readhk`, which renames inside its loop). -/
theorem c4_metadata_rename_key_error :
    datapffInit fnPh256 = .ok dPh256 ∧
      readpff extC4 dPh256 fileC4 (-1) 0 .all 0 "qfb" true =
        .error (.keyError "TEMP1") := by
  constructor
  · decide
  · decide

theorem lookupA_none_iff {V : Type} (info : List (String × V)) (k : String) :
    lookupA info k = none ↔ k ∉ info.map Prod.fst := by
  induction info with
  | nil => simp [lookupA]
  | cons p rest ih =>
    obtain ⟨k', v⟩ := p
    show (if k' = k then some v else lookupA rest k) = none ↔ _
    by_cases h : k' = k
    · rw [if_pos h]
      subst h
      simp
    · rw [if_neg h, ih]
      simp only [List.map_cons, List.mem_cons]
      constructor
      · intro hk hc
        rcases hc with hc | hc
        · exact h hc.symm
        · exact hk hc
      · intro hk hc
        exact hk (Or.inr hc)

theorem lookupA_append_left_none {V : Type} {a : List (String × V)} (b : List (String × V))
    (k : String) (ha : lookupA a k = none) : lookupA (a ++ b) k = lookupA b k := by
  induction a with
  | nil => simp
  | cons p rest ih =>
    obtain ⟨k', v⟩ := p
    have h : ¬k' = k := by
      intro he
      have : (if k' = k then some v else lookupA rest k) = none := ha
      rw [if_pos he] at this
      exact Option.noConfusion this
    have ha' : lookupA rest k = none := by
      have : (if k' = k then some v else lookupA rest k) = none := ha
      rwa [if_neg h] at this
    rw [List.cons_append]
    show (if k' = k then some v else lookupA (rest ++ b) k) = lookupA b k
    rw [if_neg h]
    exact ih ha'

theorem assocAppend_cons_eq {V : Type} (k : String) (l : List V)
    (rest : List (String × List V)) (v : V) :
    assocAppend ((k, l) :: rest) k v = some ((k, l ++ [v]) :: rest) := by
  unfold assocAppend
  rw [if_pos rfl]

theorem assocAppend_none_iff {V : Type} (f : List (String × List V)) (k : String) (v : V) :
    assocAppend f k v = none ↔ k ∉ f.map Prod.fst := by
  induction f with
  | nil => simp [assocAppend]
  | cons p rest ih =>
    obtain ⟨k', l⟩ := p
    show (if k' = k then some ((k', l ++ [v]) :: rest)
        else (assocAppend rest k v).map ((k', l) :: ·)) = none ↔ _
    by_cases h : k' = k
    · rw [if_pos h]
      subst h
      simp
    · rw [if_neg h, Option.map_eq_none', ih]
      simp only [List.map_cons, List.mem_cons]
      constructor
      · intro hk hc
        rcases hc with hc | hc
        · exact h hc.symm
        · exact hk hc
      · intro hk hc
        exact hk (Or.inr hc)

theorem assocAppend_keys {V : Type} :
    ∀ {f f' : List (String × List V)} {k : String} {v : V},
      assocAppend f k v = some f' → f'.map Prod.fst = f.map Prod.fst := by
  intro f
  induction f with
  | nil => intro f' k v h; simp [assocAppend] at h
  | cons p rest ih =>
    obtain ⟨k', l⟩ := p
    intro f' k v h
    unfold assocAppend at h
    split at h
    · injection h with h
      subst h
      simp
    · rcases ha : assocAppend rest k v with _ | rest'
      · rw [ha] at h
        simp at h
      · rw [ha] at h
        simp only [Option.map_some', Option.some.injEq] at h
        subst h
        simp [ih ha]

theorem assocAppend_append_left {V : Type} {f1 : List (String × List V)}
    (f2 : List (String × List V)) (k : String) (v : V) (hk : k ∉ f1.map Prod.fst) :
    assocAppend (f1 ++ f2) k v = (assocAppend f2 k v).map (f1 ++ ·) := by
  induction f1 with
  | nil =>
    show assocAppend f2 k v = (assocAppend f2 k v).map (fun x => [] ++ x)
    cases h : assocAppend f2 k v <;> simp [h]
  | cons p rest ih =>
    obtain ⟨k', l⟩ := p
    have hne : k' ≠ k := by
      intro h
      exact hk (by simp [h])
    have hk' : k ∉ rest.map Prod.fst := by
      intro h
      exact hk (by simp [h])
    rw [List.cons_append]
    show (if k' = k then some ((k', l ++ [v]) :: (rest ++ f2))
        else (assocAppend (rest ++ f2) k v).map ((k', l) :: ·)) =
      (assocAppend f2 k v).map (((k', l) :: rest) ++ ·)
    rw [if_neg hne, ih hk']
    cases h : assocAppend f2 k v <;> simp [h]

theorem appendFieldsW_keys {V : Type} (keyOf : String → String) (conv : V → V) :
    ∀ (vs : List (String × V)) {f f' : List (String × List V)},
      appendFieldsW keyOf conv f vs = .ok f' → f'.map Prod.fst = f.map Prod.fst := by
  intro vs
  induction vs with
  | nil =>
    intro f f' h
    unfold appendFieldsW at h
    injection h with h
    subst h
    rfl
  | cons p rest ih =>
    obtain ⟨k, v⟩ := p
    intro f f' h
    unfold appendFieldsW at h
    split at h
    · rename_i st' hst
      rw [ih h, assocAppend_keys hst]
    · exact absurd h (by simp)

theorem appendFieldsW_missing {V : Type} (keyOf : String → String) (conv : V → V) :
    ∀ (vs : List (String × V)) (f : List (String × List V)),
      (∃ p ∈ vs, keyOf p.1 ∉ f.map Prod.fst) →
      ∃ k', appendFieldsW keyOf conv f vs = .error (.keyError k') := by
  intro vs
  induction vs with
  | nil =>
    rintro f ⟨p, hp, -⟩
    simp at hp
  | cons q rest ih =>
    obtain ⟨k, v⟩ := q
    rintro f ⟨p, hp, hmiss⟩
    by_cases hk : keyOf k ∈ f.map Prod.fst
    · rcases ha : assocAppend f (keyOf k) (conv v) with _ | st'
      · exact absurd ((assocAppend_none_iff f (keyOf k) (conv v)).mp ha) (not_not_intro hk)
      · have hstep : appendFieldsW keyOf conv f ((k, v) :: rest) =
            appendFieldsW keyOf conv st' rest := by
          show (match assocAppend f (keyOf k) (conv v) with
              | some st'' => appendFieldsW keyOf conv st'' rest
              | none => Except.error (PyErr.keyError (keyOf k))) = _
          rw [ha]
        rcases List.mem_cons.mp hp with h | h
        · subst h
          exact absurd hk hmiss
        · have : keyOf p.1 ∉ st'.map Prod.fst := by
            rw [assocAppend_keys ha]
            exact hmiss
          rcases ih st' ⟨p, h, this⟩ with ⟨k', hk'⟩
          exact ⟨k', hstep ▸ hk'⟩
    · refine ⟨keyOf k, ?_⟩
      unfold appendFieldsW
      rw [(assocAppend_none_iff f (keyOf k) (conv v)).mpr hk]

theorem appendFieldsW_bump {V : Type} (keyOf : String → String) (conv : V → V) :
    ∀ (vs : List (String × V)) (f1 f2 : List (String × List V)),
      f2.map Prod.fst = vs.map (fun p => keyOf p.1) →
      ((f1 ++ f2).map Prod.fst).Nodup →
      ∃ f2', appendFieldsW keyOf conv (f1 ++ f2) vs = .ok (f1 ++ f2') ∧
        f2'.map Prod.fst = f2.map Prod.fst ∧
        f2'.map (fun p => p.2.length) = f2.map (fun p => p.2.length + 1) := by
  intro vs
  induction vs with
  | nil =>
    intro f1 f2 hkeys hnd
    have : f2 = [] := by
      cases f2 with
      | nil => rfl
      | cons q t => simp at hkeys
    subst this
    exact ⟨[], rfl, rfl, rfl⟩
  | cons q rest ih =>
    obtain ⟨k, v⟩ := q
    intro f1 f2 hkeys hnd
    cases f2 with
    | nil => simp at hkeys
    | cons q' f2'' =>
      obtain ⟨qk, l⟩ := q'
      simp only [List.map_cons, List.cons.injEq] at hkeys
      obtain ⟨hqk, hkeys'⟩ := hkeys
      subst hqk
      have hnd' : (f1.map Prod.fst).Nodup ∧ ((keyOf k :: f2''.map Prod.fst)).Nodup ∧
          (f1.map Prod.fst).Disjoint (keyOf k :: f2''.map Prod.fst) := by
        rw [List.map_append, List.map_cons] at hnd
        exact List.nodup_append.mp hnd
      have hnotin : keyOf k ∉ f1.map Prod.fst := by
        intro h
        exact hnd'.2.2 h (List.mem_cons_self _ _)
      have hstep : assocAppend (f1 ++ (keyOf k, l) :: f2'') (keyOf k) (conv v) =
          some (f1 ++ (keyOf k, l ++ [conv v]) :: f2'') := by
        rw [assocAppend_append_left _ _ _ hnotin, assocAppend_cons_eq]
        rfl
      have hrw : appendFieldsW keyOf conv (f1 ++ (keyOf k, l) :: f2'') ((k, v) :: rest) =
          appendFieldsW keyOf conv (f1 ++ (keyOf k, l ++ [conv v]) :: f2'') rest := by
        show (match assocAppend (f1 ++ (keyOf k, l) :: f2'') (keyOf k) (conv v) with
            | some st'' => appendFieldsW keyOf conv st'' rest
            | none => Except.error (PyErr.keyError (keyOf k))) = _
        rw [hstep]
      have hassoc : f1 ++ (keyOf k, l ++ [conv v]) :: f2'' =
          (f1 ++ [(keyOf k, l ++ [conv v])]) ++ f2'' := by
        simp
      have hnd2 : (((f1 ++ [(keyOf k, l ++ [conv v])]) ++ f2'').map Prod.fst).Nodup := by
        simp only [List.map_append, List.map_cons, List.map_nil] at hnd ⊢
        simpa using hnd
      rcases ih (f1 ++ [(keyOf k, l ++ [conv v])]) f2'' hkeys' hnd2 with
        ⟨f3, hrun, hk3, hl3⟩
      refine ⟨(keyOf k, l ++ [conv v]) :: f3, ?_, ?_, ?_⟩
      · rw [hrw, hassoc, hrun]
        simp
      · simp [hk3]
      · simp [hl3]

theorem mkTemplate_go {V : Type} :
    ∀ (fs : List (String × V)) (acc : List (String × List V)),
      (∀ p ∈ fs, lookupA acc (renameKey p.1) = none) →
      (fs.map (fun p => renameKey p.1)).Nodup →
      fs.foldl
          (fun t p =>
            if (lookupA t (renameKey p.1)).isSome then t else t ++ [(renameKey p.1, [])])
          acc =
        acc ++ fs.map (fun p => (renameKey p.1, ([] : List V))) := by
  intro fs
  induction fs with
  | nil => intro acc _ _; simp
  | cons p rest ih =>
    intro acc hacc hnd
    have hnd2 := hnd
    rw [List.map_cons] at hnd2
    obtain ⟨hhd, htl⟩ := List.nodup_cons.mp hnd2
    have h1 : lookupA acc (renameKey p.1) = none := hacc p (List.mem_cons_self p rest)
    simp only [List.foldl_cons, h1, Option.isSome_none, Bool.false_eq_true, if_false]
    have hacc' : ∀ q ∈ rest,
        lookupA (acc ++ [(renameKey p.1, ([] : List V))]) (renameKey q.1) = none := by
      intro q hq
      rw [lookupA_append_left_none _ _ (hacc q (List.mem_cons_of_mem p hq))]
      have hne : renameKey p.1 ≠ renameKey q.1 := by
        intro he
        exact hhd (he ▸ List.mem_map_of_mem (fun r => renameKey r.1) hq)
      show (if renameKey p.1 = renameKey q.1 then some [] else lookupA [] (renameKey q.1)) =
        none
      rw [if_neg hne]
      rfl
    rw [ih (acc ++ [(renameKey p.1, [])]) hacc' htl]
    simp

theorem mkTemplate_eq {V : Type} (fs : List (String × V))
    (hnd : (fs.map (fun p => renameKey p.1)).Nodup) :
    mkTemplate fs = fs.map (fun p => (renameKey p.1, ([] : List V))) := by
  unfold mkTemplate
  rw [mkTemplate_go fs [] (fun p _ => rfl) hnd]
  rfl

theorem updateAt_error {V : Type} :
    ∀ (info : List (String × V)) (k : String) (F : V) (g : V → Except PyErr V) (e : PyErr),
      lookupA info k = some F → g F = .error e → updateAt info k g = .error e := by
  intro info
  induction info with
  | nil =>
    intro k F g e hl _
    exact absurd hl (by simp [lookupA])
  | cons p rest ih =>
    obtain ⟨k', v⟩ := p
    intro k F g e hl hg
    by_cases h : k' = k
    · have hv : v = F := by
        have : (if k' = k then some v else lookupA rest k) = some F := hl
        rw [if_pos h] at this
        injection this
      show (if k' = k then eBind (g v) fun v' => .ok ((k', v') :: rest)
          else eBind (updateAt rest k g) fun rest' => .ok ((k', v) :: rest')) = .error e
      rw [if_pos h, hv, hg]
      rfl
    · have hl' : lookupA rest k = some F := by
        have : (if k' = k then some v else lookupA rest k) = some F := hl
        rwa [if_neg h] at this
      show (if k' = k then eBind (g v) fun v' => .ok ((k', v') :: rest)
          else eBind (updateAt rest k g) fun rest' => .ok ((k', v) :: rest')) = .error e
      rw [if_neg h, ih k F g e hl' hg]
      rfl

theorem processHkLine_valid {V : Type} (conv : V → V) (s : String) (ks : List String)
    (hnd : (ks.map renameKey).Nodup) (F : List (String × List V)) (fs : List (String × V))
    (hF : F.map Prod.fst = ks.map renameKey) (hfs : fs.map Prod.fst = ks) :
    ∃ F', processHkLine conv [(s, F)] (some [(s, fs)]) = .ok [(s, F')] ∧
      F'.map Prod.fst = ks.map renameKey ∧
      F'.map (fun p => p.2.length) = F.map (fun p => p.2.length + 1) := by
  have hkeys : F.map Prod.fst = fs.map (fun p => renameKey p.1) := by
    rw [hF, ← hfs, List.map_map]
    rfl
  have hnd' : ((([] : List (String × List V)) ++ F).map Prod.fst).Nodup := by
    simpa [hF] using hnd
  obtain ⟨F', hrun, hk2, hl2⟩ := appendFieldsW_bump renameKey conv fs [] F hkeys hnd'
  have hrun' : appendFieldsW renameKey conv F fs = .ok F' := by simpa using hrun
  refine ⟨F', ?_, by rw [hk2, hF], hl2⟩
  show updateAt
      (if (lookupA [(s, F)] s).isSome then [(s, F)] else [(s, F)] ++ [(s, mkTemplate fs)]) s
      (fun flds => appendFieldsW renameKey conv flds fs) = .ok [(s, F')]
  have hl : lookupA [(s, F)] s = some F := by
    show (if s = s then some F else lookupA [] s) = some F
    rw [if_pos rfl]
  rw [hl]
  show updateAt [(s, F)] s (fun flds => appendFieldsW renameKey conv flds fs) = .ok [(s, F')]
  show (if s = s then eBind (appendFieldsW renameKey conv F fs) fun v' => .ok ((s, v') :: [])
      else eBind (updateAt [] s (fun flds => appendFieldsW renameKey conv flds fs))
        fun rest' => .ok ((s, F) :: rest')) = .ok [(s, F')]
  rw [if_pos rfl, hrun']
  rfl

theorem processHkLine_first {V : Type} (conv : V → V) (s : String) (ks : List String)
    (hnd : (ks.map renameKey).Nodup) (fs : List (String × V))
    (hfs : fs.map Prod.fst = ks) :
    ∃ F', processHkLine conv [] (some [(s, fs)]) = .ok [(s, F')] ∧
      F'.map Prod.fst = ks.map renameKey ∧ ∀ p ∈ F', p.2.length = 1 := by
  have hndfs : (fs.map (fun p => renameKey p.1)).Nodup := by
    have : fs.map (fun p => renameKey p.1) = ks.map renameKey := by
      rw [← hfs, List.map_map]
      rfl
    rw [this]
    exact hnd
  have hT : mkTemplate fs = fs.map (fun p => (renameKey p.1, ([] : List V))) :=
    mkTemplate_eq fs hndfs
  have hTkeys : (mkTemplate fs).map Prod.fst = fs.map (fun p => renameKey p.1) := by
    rw [hT, List.map_map]
    rfl
  obtain ⟨F', hrun, hk2, hl2⟩ := appendFieldsW_bump renameKey conv fs [] (mkTemplate fs)
    hTkeys (by simpa [hTkeys] using hndfs)
  have hrun' : appendFieldsW renameKey conv (mkTemplate fs) fs = .ok F' := by simpa using hrun
  refine ⟨F', ?_, ?_, ?_⟩
  · show updateAt
        (if (lookupA ([] : List (String × List (String × List V))) s).isSome then []
          else [] ++ [(s, mkTemplate fs)]) s
        (fun flds => appendFieldsW renameKey conv flds fs) = .ok [(s, F')]
    show updateAt [(s, mkTemplate fs)] s
        (fun flds => appendFieldsW renameKey conv flds fs) = .ok [(s, F')]
    show (if s = s then
        eBind (appendFieldsW renameKey conv (mkTemplate fs) fs) fun v' => .ok ((s, v') :: [])
      else eBind (updateAt [] s (fun flds => appendFieldsW renameKey conv flds fs))
        fun rest' => .ok ((s, mkTemplate fs) :: rest')) = .ok [(s, F')]
    rw [if_pos rfl, hrun']
    rfl
  · rw [hk2, hTkeys, ← hfs, List.map_map]
    rfl
  · intro p hp
    have hmem : p.2.length ∈ F'.map (fun p => p.2.length) :=
      List.mem_map_of_mem (fun p => p.2.length) hp
    rw [hl2, hT] at hmem
    rw [List.map_map] at hmem
    rcases List.mem_map.mp hmem with ⟨q, -, he⟩
    simp at he
    omega

/-- A housekeeping line is `lineOk s ks` when it is malformed (skipped) or a
single-subsystem record for `s` whose field names are exactly `ks`. -/
def lineOk {V : Type} (s : String) (ks : List String) (l : HkLine V) : Prop :=
  l = none ∨ ∃ fs, l = some [(s, fs)] ∧ fs.map Prod.fst = ks

/-- The number of lines that parse (the valid records). -/
def countValid {V : Type} (lines : List (HkLine V)) : Nat :=
  lines.countP (fun l => l.isSome)

theorem foldHk_inv {V : Type} (conv : V → V) (s : String) (ks : List String)
    (hnd : (ks.map renameKey).Nodup) :
    ∀ (lines : List (HkLine V)) (F : List (String × List V)) (c : Nat),
      (∀ l ∈ lines, lineOk s ks l) →
      F.map Prod.fst = ks.map renameKey →
      (∀ p ∈ F, p.2.length = c) →
      ∃ F', foldE (processHkLine conv) [(s, F)] lines = .ok [(s, F')] ∧
        F'.map Prod.fst = ks.map renameKey ∧
        ∀ p ∈ F', p.2.length = c + countValid lines := by
  intro lines
  induction lines with
  | nil =>
    intro F c _ hF hlen
    exact ⟨F, rfl, hF, by simpa [countValid] using hlen⟩
  | cons l rest ih =>
    intro F c hok hF hlen
    rcases hok l (List.mem_cons_self l rest) with hnone | ⟨fs, rfl, hfs⟩
    · subst hnone
      have hcount : countValid (none :: rest) = countValid rest := by
        simp [countValid, List.countP_cons]
      rw [foldE_cons]
      have hstep : processHkLine conv [(s, F)] none = .ok [(s, F)] := rfl
      rw [hstep, eBind_pure]
      obtain ⟨F', h1, h2, h3⟩ := ih F c (fun l' hl' => hok l' (List.mem_cons_of_mem _ hl'))
        hF hlen
      exact ⟨F', h1, h2, fun p hp => by rw [h3 p hp, hcount]⟩
    · obtain ⟨F', hstep, hk2, hl2⟩ := processHkLine_valid conv s ks hnd F fs hF hfs
      have hlen' : ∀ p ∈ F', p.2.length = c + 1 := by
        intro p hp
        have hmem : p.2.length ∈ F'.map (fun p => p.2.length) :=
          List.mem_map_of_mem (fun p => p.2.length) hp
        rw [hl2] at hmem
        rcases List.mem_map.mp hmem with ⟨q, hq, he⟩
        rw [← he, hlen q hq]
      rw [foldE_cons, hstep, eBind_pure]
      obtain ⟨F'', h1, h2, h3⟩ := ih F' (c + 1)
        (fun l' hl' => hok l' (List.mem_cons_of_mem _ hl')) hk2 hlen'
      refine ⟨F'', h1, h2, fun p hp => ?_⟩
      rw [h3 p hp]
      have : countValid (some [(s, fs)] :: rest) = countValid rest + 1 := by
        simp [countValid, List.countP_cons]
      rw [this]
      omega

theorem readhk_uniform {V : Type} (conv : V → V) (s : String) (ks : List String)
    (hnd : (ks.map renameKey).Nodup) :
    ∀ lines : List (HkLine V), (∀ l ∈ lines, lineOk s ks l) → 0 < countValid lines →
      ∃ F, readhk conv lines = .ok [(s, F)] ∧ F.map Prod.fst = ks.map renameKey ∧
        ∀ p ∈ F, p.2.length = countValid lines := by
  intro lines
  induction lines with
  | nil => intro _ h; simp [countValid] at h
  | cons l rest ih =>
    intro hok hpos
    rcases hok l (List.mem_cons_self l rest) with hnone | ⟨fs, rfl, hfs⟩
    · subst hnone
      have hcount : countValid (none :: rest) = countValid rest := by
        simp [countValid, List.countP_cons]
      have hpos' : 0 < countValid rest := by rw [← hcount]; exact hpos
      obtain ⟨F, h1, h2, h3⟩ := ih (fun l' hl' => hok l' (List.mem_cons_of_mem _ hl')) hpos'
      refine ⟨F, ?_, h2, fun p hp => by rw [h3 p hp, hcount]⟩
      show foldE (processHkLine conv) [] (none :: rest) = .ok [(s, F)]
      rw [foldE_cons]
      exact h1
    · obtain ⟨F1, hstep, hk1, hl1⟩ := processHkLine_first conv s ks hnd fs hfs
      obtain ⟨F', h1, h2, h3⟩ := foldHk_inv conv s ks hnd rest F1 1
        (fun l' hl' => hok l' (List.mem_cons_of_mem _ hl')) hk1 hl1
      refine ⟨F', ?_, h2, fun p hp => ?_⟩
      · show foldE (processHkLine conv) [] (some [(s, fs)] :: rest) = .ok [(s, F')]
        rw [foldE_cons, hstep, eBind_pure]
        exact h1
      · rw [h3 p hp]
        have : countValid (some [(s, fs)] :: rest) = countValid rest + 1 := by
          simp [countValid, List.countP_cons]
        rw [this]
        omega

theorem countValid_add_none {V : Type} (lines : List (HkLine V)) :
    countValid lines + lines.countP (fun l => l.isNone) = lines.length := by
  induction lines with
  | nil => rfl
  | cons l rest ih =>
    cases l <;> simp [countValid, List.countP_cons] at ih ⊢ <;> omega

/-- C8: a housekeeping file of 11 lines, exactly one of which fails JSON
parsing, the other 10 valid records of one subsystem with the same fields:
`readhk` returns that subsystem's series, each of length 10; the malformed
line is silently skipped (the bare `except: continue`) and aborts nothing. -/
theorem c8_malformed_line_skipped {V : Type} (conv : V → V) (s : String)
    (ks : List String) (lines : List (HkLine V))
    (hnd : (ks.map renameKey).Nodup)
    (hok : ∀ l ∈ lines, lineOk s ks l)
    (hlen : lines.length = 11)
    (hbad : lines.countP (fun l => l.isNone) = 1) :
    ∃ F, readhk conv lines = .ok [(s, F)] ∧ F.map Prod.fst = ks.map renameKey ∧
      ∀ p ∈ F, p.2.length = 10 := by
  have hcv : countValid lines = 10 := by
    have := countValid_add_none lines
    omega
  obtain ⟨F, h1, h2, h3⟩ := readhk_uniform conv s ks hnd lines hok (by omega)
  exact ⟨F, h1, h2, fun p hp => by rw [h3 p hp, hcv]⟩

/-- A valid housekeeping line for the C8 witness. -/
def hkLineW : HkLine Unit := some [("quabo", [("A", ()), ("B", ())])]

/-- Eleven lines, the sixth malformed. -/
def hkLinesW : List (HkLine Unit) :=
  [hkLineW, hkLineW, hkLineW, hkLineW, hkLineW, none,
    hkLineW, hkLineW, hkLineW, hkLineW, hkLineW]

theorem c8_witness :
    ∃ F, readhk (fun v : Unit => v) hkLinesW = .ok [("quabo", F)] ∧
      F.map Prod.fst = ["A", "B"].map renameKey ∧ ∀ p ∈ F, p.2.length = 10 := by
  refine c8_malformed_line_skipped (fun v : Unit => v) "quabo" ["A", "B"] hkLinesW
    (by decide) ?_ (by decide) (by decide)
  intro l hl
  simp only [hkLinesW, List.mem_cons, List.not_mem_nil, or_false] at hl
  rcases hl with rfl | rfl | rfl | rfl | rfl | rfl | rfl | rfl | rfl | rfl | rfl
  all_goals first
    | exact Or.inl rfl
    | exact Or.inr ⟨[("A", ()), ("B", ())], rfl, rfl⟩

/-- C10: both accumulators freeze their field-name set at the first record.
Part one: in `readhk`, a later valid line of subsystem `s` holding a field
`k` whose renamed form is not among the stored keys makes the decode raise
`KeyError` (the lookup `self.hk_info[key][k]` fails in all three `try`
levels and the last is uncaught). Part two: in the `readpff` metadata loop,
the same happens for a line holding a field absent from the frozen template
(the template keys are images of `renameKey`, so a field missing after
rename is also missing before it). -/
theorem c10_frozen_field_set {V : Type} (conv : V → V) (pre : List (HkLine V))
    (info : List (String × List (String × List V))) (s : String)
    (F : List (String × List V)) (fs : List (String × V)) (k : String)
    (ks : List String) (T : List (String × List V)) (fs2 : List (String × V)) (k2 : String)
    (jl : List Nat → Option (List (String × V))) (line : List Nat)
    (hpre : readhk conv pre = .ok info)
    (hlook : lookupA info s = some F)
    (hmem : k ∈ fs.map Prod.fst)
    (hmiss : renameKey k ∉ F.map Prod.fst)
    (hjl : jl line = some fs2)
    (hT : T.map Prod.fst = ks.map renameKey)
    (hTne : T ≠ [])
    (hmem2 : k2 ∈ fs2.map Prod.fst)
    (hmiss2 : renameKey k2 ∉ T.map Prod.fst) :
    (∃ e, readhk conv (pre ++ [some [(s, fs)]]) = .error (.keyError e)) ∧
      (∃ e, mdProcessLine jl T line = .error (.keyError e)) := by
  constructor
  · rcases List.mem_map.mp hmem with ⟨p, hp, hpk⟩
    have hwit : ∃ q ∈ fs, renameKey q.1 ∉ F.map Prod.fst := ⟨p, hp, by rw [hpk]; exact hmiss⟩
    obtain ⟨e, herr⟩ := appendFieldsW_missing renameKey conv fs F hwit
    refine ⟨e, ?_⟩
    show foldE (processHkLine conv) [] (pre ++ [some [(s, fs)]]) = .error (.keyError e)
    rw [foldE_append]
    show eBind (readhk conv pre) _ = .error (.keyError e)
    rw [hpre, eBind_pure, foldE_cons]
    have hstep : processHkLine conv info (some [(s, fs)]) = .error (.keyError e) := by
      show updateAt
          (if (lookupA info s).isSome then info else info ++ [(s, mkTemplate fs)]) s
          (fun flds => appendFieldsW renameKey conv flds fs) = .error (.keyError e)
      rw [hlook]
      show updateAt info s (fun flds => appendFieldsW renameKey conv flds fs) =
        .error (.keyError e)
      exact updateAt_error info s F _ _ hlook herr
    rw [hstep]
    rfl
  · rcases List.mem_map.mp hmem2 with ⟨p, hp, hpk⟩
    have hk2T : k2 ∉ T.map Prod.fst := by
      intro hin
      apply hmiss2
      rw [hT] at hin ⊢
      rcases List.mem_map.mp hin with ⟨x, hx, hxk⟩
      have : renameKey k2 = k2 := by rw [← hxk, renameKey_idem]
      rw [this]
      exact hin
    have hwit : ∃ q ∈ fs2, id q.1 ∉ T.map Prod.fst := by
      refine ⟨p, hp, ?_⟩
      show p.1 ∉ T.map Prod.fst
      rw [hpk]
      exact hk2T
    obtain ⟨e, herr⟩ := appendFieldsW_missing id id fs2 T hwit
    refine ⟨e, ?_⟩
    show (match jl line with
        | none => Except.error PyErr.valueError
        | some md =>
          appendFieldsW id id (if T.isEmpty then mkTemplate md else T) md) =
      .error (.keyError e)
    rw [hjl]
    have hemp : T.isEmpty = false := by
      cases T with
      | nil => exact absurd rfl hTne
      | cons a b => rfl
    show appendFieldsW id id (if T.isEmpty then mkTemplate fs2 else T) fs2 =
      .error (.keyError e)
    rw [hemp]
    show appendFieldsW id id T fs2 = .error (.keyError e)
    exact herr

/-- Concrete witness inputs for C10: one prior record with field `A`, a later
record with new field `B`; and for the metadata half a frozen template with
key `A` and a line decoding to a record with field `B`. -/
def preW : List (HkLine Unit) := [some [("q", [("A", ())])]]

def jlW : List Nat → Option (List (String × Unit)) := fun l =>
  if l = [7] then some [("B", ())] else none

theorem c10_witness :
    (∃ e, readhk (fun v : Unit => v) (preW ++ [some [("q", [("B", ())])]]) =
        .error (.keyError e)) ∧
      (∃ e, mdProcessLine jlW [("A", [])] [7] = .error (.keyError e)) := by
  refine c10_frozen_field_set (fun v : Unit => v) preW [("q", [("A", [()])])] "q"
    [("A", [()])] [("B", ())] "B" ["A"] [("A", [])] [("B", ())] "B" jlW [7]
    (by decide) (by decide) (by decide) (by decide) (by decide) (by decide)
    (by decide) (by decide) (by decide)

theorem frombuffer_i16_len :
    ∀ (n : Nat) (bs : List Nat), bs.length = 2 * n →
      ∃ l, frombuffer .int16 bs = some l ∧ l.length = n := by
  intro n
  induction n with
  | zero =>
    intro bs h
    cases bs with
    | nil => exact ⟨[], rfl, rfl⟩
    | cons a t => simp at h
  | succ n ih =>
    intro bs h
    cases bs with
    | nil => simp at h
    | cons lo t =>
      cases t with
      | nil => simp at h; omega
      | cons hi rest =>
        have hrest : rest.length = 2 * n := by
          simp at h
          omega
        obtain ⟨l, hl, hlen⟩ := ih rest hrest
        refine ⟨toI16 lo hi :: l, ?_, by simp [hlen]⟩
        show (frombuffer .int16 rest).map (toI16 lo hi :: ·) = some (toI16 lo hi :: l)
        rw [hl]
        rfl

theorem chunkN_length : ∀ (n cols : Nat) (l : List Int), (chunkN n cols l).length = n := by
  intro n
  induction n with
  | zero => intro cols l; rfl
  | succ n ih =>
    intro cols l
    show (l.take cols :: chunkN n cols (l.drop cols)).length = n + 1
    simp [ih]

theorem chunkN_mem_len :
    ∀ (n cols : Nat), 0 < cols → ∀ (l : List Int), l.length = n * cols →
      ∀ r ∈ chunkN n cols l, r.length = cols := by
  intro n
  induction n with
  | zero =>
    intro cols _ l _ r hr
    simp [chunkN] at hr
  | succ n ih =>
    intro cols hc l hl r hr
    rw [show chunkN (n + 1) cols l = l.take cols :: chunkN n cols (l.drop cols) from rfl]
      at hr
    rcases List.mem_cons.mp hr with h | h
    · subst h
      rw [List.length_take]
      have : cols ≤ l.length := by
        rw [hl]
        calc cols = 1 * cols := (Nat.one_mul cols).symm
        _ ≤ (n + 1) * cols := Nat.mul_le_mul_right cols (by omega)
      omega
    · exact ih cols hc (l.drop cols) (by rw [List.length_drop, hl]; ring_nf; omega) r h

theorem reshapeRows_eq (cols n : Nat) (hc : cols ≠ 0) (l : List Int)
    (hl : l.length = n * cols) : reshapeRows cols l = some (chunkN n cols l) := by
  unfold reshapeRows
  rw [if_pos ⟨hc, by rw [hl]; exact Nat.mul_mod_left n cols⟩]
  congr 1
  rw [hl, Nat.mul_div_cancel n (by omega)]

theorem init_ph256_fields {fn : List Char} {d : Datapff}
    (hInit : datapffInit fn = .ok d) (hdp : d.dp = "ph256".toList) (hbpp : d.bpp = 2) :
    d.md_size = 124 ∧ d.datasize = 636 ∧ d.dtype = some .int16 := by
  obtain ⟨hms, hpx, hds, hsz, hdt, -⟩ := datapffInit_fields hInit
  rw [if_pos hdp] at hms hpx
  rw [if_pos (Or.inl hdp)] at hdt
  refine ⟨hms, ?_, hdt⟩
  rw [hsz, hds, hms, hpx, hbpp]
  norm_num

theorem readCore_ph256_ok {V : Type} (ext : PffExt V) {fn : List Char} {d : Datapff}
    (file : List Nat) (N : Nat)
    (hInit : datapffInit fn = .ok d) (hdp : d.dp = "ph256".toList) (hbpp : d.bpp = 2)
    (hfile : file.length = N * 636) :
    ∃ rows, readCore ext d file (-1) 0 false = .ok (rows, []) ∧
      rows.length = N ∧ ∀ r ∈ rows, r.length = 256 := by
  obtain ⟨hms, hsz, hdt⟩ := init_ph256_fields hInit hdp hbpp
  obtain ⟨tmp, htmp, htlen⟩ := frombuffer_i16_len (N * 318) file (by omega)
  have hcols : (Int.tdiv d.datasize d.bpp).toNat = 318 := by
    rw [hsz, hbpp]
    decide
  have hmdc : (Int.tdiv d.md_size d.bpp).toNat = 62 := by
    rw [hms, hbpp]
    decide
  unfold readCore
  rw [if_pos hdp, if_pos rfl, hdt]
  simp only [optE_some, eBind_pure]
  rw [htmp]
  simp only [optE_some, eBind_pure]
  rw [hcols, reshapeRows_eq 318 N (by omega) tmp (by omega)]
  simp only [optE_some, eBind_pure]
  rw [show mdPhase ext .int16 (Int.tdiv d.md_size d.bpp).toNat (chunkN N 318 tmp) false =
    .ok [] from rfl]
  simp only [eBind_pure]
  rw [hmdc]
  refine ⟨_, rfl, ?_, ?_⟩
  · rw [List.length_map, chunkN_length]
  · intro r hr
    rcases List.mem_map.mp hr with ⟨r0, hr0, rfl⟩
    have h318 := chunkN_mem_len N 318 (by omega) tmp (by omega) r0 hr0
    rw [List.length_drop, h318]

/-- C6: for a ph256 file of exactly N complete records (636 bytes each with
bytes-per-pixel 2), `readpff` with `samples = -1` returns exactly N rows of
256 samples each, and an empty metadata mapping when none was requested; in
particular N = 0 yields an empty 0-row table without error. -/
theorem c6_read_all_returns_all_rows {V : Type} (ext : PffExt V) (fn : List Char)
    (d : Datapff) (file : List Nat) (N : Nat) (q : Int) (ver : String)
    (hInit : datapffInit fn = .ok d) (hdp : d.dp = "ph256".toList) (hbpp : d.bpp = 2)
    (hfile : file.length = N * 636) :
    ∃ rows, readpff ext d file (-1) 0 .all q ver false = .ok (.d2 rows, []) ∧
      rows.length = N ∧ ∀ r ∈ rows, r.length = 256 := by
  obtain ⟨rows, hc, hlen, hshape⟩ := readCore_ph256_ok ext file N hInit hdp hbpp hfile
  refine ⟨rows, ?_, hlen, hshape⟩
  unfold readpff
  rw [hc, eBind_pure]

theorem c6_witness :
    ∃ rows, readpff extU dPh256 (List.replicate 1272 0) (-1) 0 .all 0 "qfb" false =
        .ok (.d2 rows, []) ∧ rows.length = 2 ∧ ∀ r ∈ rows, r.length = 256 :=
  c6_read_all_returns_all_rows extU fnPh256 dPh256 (List.replicate 1272 0) 2 0 "qfb"
    (by decide) (by decide) (by decide) (by decide)

theorem pyCol_ok :
    ∀ (rows : List (List Int)) (i : Int), 0 ≤ i → (∀ r ∈ rows, i < (r.length : Int)) →
      pyCol rows i = .ok (rows.map (fun r => r.getD i.toNat 0)) := by
  intro rows
  induction rows with
  | nil => intro i _ _; rfl
  | cons r rest ih =>
    intro i h0 hlt
    have hj : pyIdx r.length i = i := by
      unfold pyIdx
      rw [if_neg (by omega)]
    have hr : pyGet r i = .ok (r.getD i.toNat 0) := by
      unfold pyGet
      rw [hj]
      rw [if_pos ⟨h0, hlt r (List.mem_cons_self r rest)⟩]
    show eBind (pyGet r i) _ = _
    rw [hr, eBind_pure, ih i h0 (fun r' hr' => hlt r' (List.mem_cons_of_mem _ hr'))]
    rfl

/-- C7: reading a ph256 file with `pixel = [row, col]` equals reading the
full table and indexing every row at the channel index that the chained
`pixelmap` lookups give for the linear pixel index `row*16 + col` — provided
that channel index is a valid column (0 ≤ ind < 256, which the real pixel
map guarantees). The `pixelmap` functions are modelled from the spec as
arbitrary pure lookups, so this holds for every instantiation of them. -/
theorem c7_pixel_pair_equals_column {V : Type} (ext : PffExt V) (fn : List Char)
    (d : Datapff) (file : List Nat) (N : Nat) (q : Int) (ver : String) (row col ind : Int)
    (rows : List (List Int)) (md : List (String × List V))
    (hInit : datapffInit fn = .ok d) (hdp : d.dp = "ph256".toList) (hbpp : d.bpp = 2)
    (hfile : file.length = N * 636)
    (hind : ind = ext.getDataIndex q ver (ext.getPixelLoc q ver (row * QUABO_DIM + col)))
    (h0 : 0 ≤ ind) (hlt : ind < 256)
    (hAll : readpff ext d file (-1) 0 .all q ver false = .ok (.d2 rows, md)) :
    readpff ext d file (-1) 0 (.pair row col) q ver false =
      .ok (.d1 (rows.map (fun r => r.getD ind.toNat 0)), md) := by
  obtain ⟨rows0, hc, hlen0, hshape0⟩ := readCore_ph256_ok ext file N hInit hdp hbpp hfile
  have hAll0 : readpff ext d file (-1) 0 .all q ver false = .ok (.d2 rows0, []) := by
    unfold readpff
    rw [hc, eBind_pure]
  rw [hAll0] at hAll
  injection hAll with hAll
  injection hAll with h1 h2
  injection h1 with h1
  subst h1
  subst h2
  unfold readpff
  rw [hc, eBind_pure]
  show eBind (pyCol rows0 (ext.getDataIndex q ver (ext.getPixelLoc q ver
      (row * QUABO_DIM + col)))) _ = _
  rw [← hind]
  rw [pyCol_ok rows0 ind h0 (fun r hr => by rw [hshape0 r hr]; exact_mod_cast hlt)]
  rfl

/-- Pixel-map stand-ins for the C7 witness: location is the identity, the
data-packet index is constantly 5. -/
def extC7 : PffExt Unit :=
  { jsonLoads := fun _ => none
    getPixelLoc := fun _ _ p => p
    getDataIndex := fun _ _ _ => 5 }

theorem c7_witness :
    readpff extC7 dPh256 (List.replicate 636 0) (-1) 0 (.pair 0 0) 0 "qfb" false =
      .ok (.d1 ([List.replicate 256 (0 : Int)].map (fun r => r.getD (5 : Int).toNat 0)),
        []) := by
  refine c7_pixel_pair_equals_column extC7 fnPh256 dPh256 (List.replicate 636 0) 1 0 "qfb"
    0 0 5 [List.replicate 256 0] [] (by decide) (by decide) (by decide) (by decide) rfl
    (by decide) (by decide) ?_
  decide

theorem isDig_ne_sep {c : Char} (h : isDig c) : c ≠ '.' ∧ c ≠ '_' := by
  constructor <;> intro hc <;> subst hc <;> revert h <;> decide

theorem fmtTs_no_dot (t : PyDateTime) : '.' ∉ fmtTs t := by
  intro h
  rcases fmtTs_chars t '.' h with hc | hc | hc | hc | hc
  · exact absurd hc (by decide)
  · exact absurd hc (by decide)
  · exact absurd hc (by decide)
  · exact absurd hc (by decide)
  · exact absurd ((isDig_ne_sep hc).1 rfl) (fun h => h)

theorem fmtTs_no_us (t : PyDateTime) : '_' ∉ fmtTs t := by
  intro h
  rcases fmtTs_chars t '_' h with hc | hc | hc | hc | hc
  · exact absurd hc (by decide)
  · exact absurd hc (by decide)
  · exact absurd hc (by decide)
  · exact absurd hc (by decide)
  · exact absurd ((isDig_ne_sep hc).2 rfl) (fun h => h)

theorem renderInt_no_dot (n : Int) : '.' ∉ renderInt n := by
  intro h
  rcases renderInt_chars n '.' h with hc | hc
  · exact absurd hc (by decide)
  · exact absurd ((isDig_ne_sep hc).1 rfl) (fun h => h)

theorem renderInt_no_us (n : Int) : '_' ∉ renderInt n := by
  intro h
  rcases renderInt_chars n '_' h with hc | hc
  · exact absurd hc (by decide)
  · exact absurd ((isDig_ne_sep hc).2 rfl) (fun h => h)

/-- Modelled from the spec: reconstruct a filename from the parsed descriptor
fields following the bit-exact schema
`<pfx>_<%Y-%m-%dT%H:%M:%SZ>.dp_<tag>.bpp_<int>.module_<int>.seqno_<int>`
(the repository has no writer; the spec fixes the schema). -/
def renderFilename (pfx : List Char) (d : Datapff) : List Char :=
  (pfx ++ '_' :: fmtTs d.startdt) ++
    '.' :: (("dp".toList ++ '_' :: d.dp) ++
      '.' :: (("bpp".toList ++ '_' :: renderInt d.bpp) ++
        '.' :: (("module".toList ++ '_' :: renderInt d.module) ++
          '.' :: ("seqno".toList ++ '_' :: renderInt d.seqno))))

theorem parseFnFields_ok {fn : List Char} {t : PyDateTime} {dp : List Char}
    {bpp mo sq : Int} (h : parseFnFields fn = .ok (t, dp, bpp, mo, sq)) :
    ∃ p1, (pysplit '.' fn).get? 1 = some p1 ∧ (pysplit '_' p1).get? 1 = some dp ∧
      ∃ ts, parseTimestamp ts = some t := by
  unfold parseFnFields at h
  obtain ⟨p0, hp0, h⟩ := eBind_ok_iff.mp h
  obtain ⟨ts, hts, h⟩ := eBind_ok_iff.mp h
  obtain ⟨t', ht', h⟩ := eBind_ok_iff.mp h
  obtain ⟨p1, hp1, h⟩ := eBind_ok_iff.mp h
  obtain ⟨dp', hdp', h⟩ := eBind_ok_iff.mp h
  obtain ⟨p2, hp2, h⟩ := eBind_ok_iff.mp h
  obtain ⟨bs, hbs, h⟩ := eBind_ok_iff.mp h
  obtain ⟨bpp', hbpp', h⟩ := eBind_ok_iff.mp h
  obtain ⟨p3, hp3, h⟩ := eBind_ok_iff.mp h
  obtain ⟨ms, hms, h⟩ := eBind_ok_iff.mp h
  obtain ⟨mo', hmo', h⟩ := eBind_ok_iff.mp h
  obtain ⟨p4, hp4, h⟩ := eBind_ok_iff.mp h
  obtain ⟨ss, hss, h⟩ := eBind_ok_iff.mp h
  obtain ⟨sq', hsq', h⟩ := eBind_ok_iff.mp h
  injection h with h
  injection h with h1 h
  injection h with h2 h
  subst h1
  subst h2
  exact ⟨p1, listIdx_ok_iff.mp hp1, listIdx_ok_iff.mp hdp', ts,
    pyStrptime_ok_iff.mp ht'⟩

/-- C9: parsing a schema-conforming filename and re-rendering the parsed
fields yields a filename that parses to an equivalent descriptor (same start
time, format tag, bytes-per-pixel, module id, sequence number), for every
prefix free of the two separators. -/
theorem c9_filename_roundtrip (pfx fn : List Char) (d : Datapff)
    (hpfx1 : '.' ∉ pfx) (hpfx2 : '_' ∉ pfx)
    (hInit : datapffInit fn = .ok d) :
    ∃ d', datapffInit (renderFilename pfx d) = .ok d' ∧
      d'.startdt = d.startdt ∧ d'.dp = d.dp ∧ d'.bpp = d.bpp ∧
      d'.module = d.module ∧ d'.seqno = d.seqno := by
  rcases datapffInit_ok_iff.mp hInit with ⟨t, dp, bpp, mo, sq, hp, rfl⟩
  obtain ⟨p1, hgp1, hgdp, ts, hts⟩ := parseFnFields_ok hp
  have hdp_nous : '_' ∉ dp := pysplit_mem_no_sep '_' p1 dp (List.get?_mem hgdp)
  have hdp_nodot : '.' ∉ dp := fun hc =>
    (pysplit_mem_no_sep '.' fn p1 (List.get?_mem hgp1))
      (pysplit_mem_sub '_' p1 dp (List.get?_mem hgdp) '.' hc)
  obtain ⟨hy1, hy, hm1, hm, hd1, hd, hh, hn, hs⟩ := parseTimestamp_ranges hts
  have hts_rt : parseTimestamp (fmtTs t) = some t :=
    parseTimestamp_fmtTs hy1 hy hm1 hm hd1 hd hh hn hs
  have hAnodot : '.' ∉ pfx ++ '_' :: fmtTs t := by
    intro h
    rcases List.mem_append.mp h with h | h
    · exact hpfx1 h
    · rcases List.mem_cons.mp h with h | h
      · exact absurd h (by decide)
      · exact fmtTs_no_dot t h
  have hBnodot : '.' ∉ "dp".toList ++ '_' :: dp := by
    intro h
    rcases List.mem_append.mp h with h | h
    · exact absurd h (by decide)
    · rcases List.mem_cons.mp h with h | h
      · exact absurd h (by decide)
      · exact hdp_nodot h
  have hCnodot : '.' ∉ "bpp".toList ++ '_' :: renderInt bpp := by
    intro h
    rcases List.mem_append.mp h with h | h
    · exact absurd h (by decide)
    · rcases List.mem_cons.mp h with h | h
      · exact absurd h (by decide)
      · exact renderInt_no_dot bpp h
  have hDnodot : '.' ∉ "module".toList ++ '_' :: renderInt mo := by
    intro h
    rcases List.mem_append.mp h with h | h
    · exact absurd h (by decide)
    · rcases List.mem_cons.mp h with h | h
      · exact absurd h (by decide)
      · exact renderInt_no_dot mo h
  have hEnodot : '.' ∉ "seqno".toList ++ '_' :: renderInt sq := by
    intro h
    rcases List.mem_append.mp h with h | h
    · exact absurd h (by decide)
    · rcases List.mem_cons.mp h with h | h
      · exact absurd h (by decide)
      · exact renderInt_no_dot sq h
  have hsplit : pysplit '.' (renderFilename pfx (mkDatapff fn t dp bpp mo sq)) =
      [pfx ++ '_' :: fmtTs t, "dp".toList ++ '_' :: dp,
        "bpp".toList ++ '_' :: renderInt bpp, "module".toList ++ '_' :: renderInt mo,
        "seqno".toList ++ '_' :: renderInt sq] := by
    show pysplit '.' ((pfx ++ '_' :: fmtTs t) ++
        '.' :: (("dp".toList ++ '_' :: dp) ++
          '.' :: (("bpp".toList ++ '_' :: renderInt bpp) ++
            '.' :: (("module".toList ++ '_' :: renderInt mo) ++
              '.' :: ("seqno".toList ++ '_' :: renderInt sq))))) = _
    rw [pysplit_append '.' _ _ hAnodot, pysplit_append '.' _ _ hBnodot,
      pysplit_append '.' _ _ hCnodot, pysplit_append '.' _ _ hDnodot,
      pysplit_no_sep '.' _ hEnodot]
  have hsA : pysplit '_' (pfx ++ '_' :: fmtTs t) = [pfx, fmtTs t] := by
    rw [pysplit_append '_' _ _ hpfx2, pysplit_no_sep '_' _ (fmtTs_no_us t)]
  have hsB : pysplit '_' ("dp".toList ++ '_' :: dp) = ["dp".toList, dp] := by
    rw [pysplit_append '_' _ _ (by decide), pysplit_no_sep '_' _ hdp_nous]
  have hsC : pysplit '_' ("bpp".toList ++ '_' :: renderInt bpp) =
      ["bpp".toList, renderInt bpp] := by
    rw [pysplit_append '_' _ _ (by decide), pysplit_no_sep '_' _ (renderInt_no_us bpp)]
  have hsD : pysplit '_' ("module".toList ++ '_' :: renderInt mo) =
      ["module".toList, renderInt mo] := by
    rw [pysplit_append '_' _ _ (by decide), pysplit_no_sep '_' _ (renderInt_no_us mo)]
  have hsE : pysplit '_' ("seqno".toList ++ '_' :: renderInt sq) =
      ["seqno".toList, renderInt sq] := by
    rw [pysplit_append '_' _ _ (by decide), pysplit_no_sep '_' _ (renderInt_no_us sq)]
  have hpf : parseFnFields (renderFilename pfx (mkDatapff fn t dp bpp mo sq)) =
      .ok (t, dp, bpp, mo, sq) := by
    unfold parseFnFields
    rw [hsplit]
    rw [show listIdx [pfx ++ '_' :: fmtTs t, "dp".toList ++ '_' :: dp,
      "bpp".toList ++ '_' :: renderInt bpp, "module".toList ++ '_' :: renderInt mo,
      "seqno".toList ++ '_' :: renderInt sq] 0 = .ok (pfx ++ '_' :: fmtTs t) from rfl,
      eBind_pure]
    rw [hsA]
    rw [show listIdx [pfx, fmtTs t] 1 = .ok (fmtTs t) from rfl, eBind_pure]
    rw [show pyStrptime (fmtTs t) = .ok t from pyStrptime_ok_iff.mpr hts_rt, eBind_pure]
    rw [show listIdx [pfx ++ '_' :: fmtTs t, "dp".toList ++ '_' :: dp,
      "bpp".toList ++ '_' :: renderInt bpp, "module".toList ++ '_' :: renderInt mo,
      "seqno".toList ++ '_' :: renderInt sq] 1 = .ok ("dp".toList ++ '_' :: dp) from rfl,
      eBind_pure]
    rw [hsB]
    rw [show listIdx ["dp".toList, dp] 1 = .ok dp from rfl, eBind_pure]
    rw [show listIdx [pfx ++ '_' :: fmtTs t, "dp".toList ++ '_' :: dp,
      "bpp".toList ++ '_' :: renderInt bpp, "module".toList ++ '_' :: renderInt mo,
      "seqno".toList ++ '_' :: renderInt sq] 2 =
      .ok ("bpp".toList ++ '_' :: renderInt bpp) from rfl, eBind_pure]
    rw [hsC]
    rw [show listIdx ["bpp".toList, renderInt bpp] 1 = .ok (renderInt bpp) from rfl,
      eBind_pure]
    rw [show pyIntE (renderInt bpp) = .ok bpp from pyIntE_ok_iff.mpr (pyInt_renderInt bpp),
      eBind_pure]
    rw [show listIdx [pfx ++ '_' :: fmtTs t, "dp".toList ++ '_' :: dp,
      "bpp".toList ++ '_' :: renderInt bpp, "module".toList ++ '_' :: renderInt mo,
      "seqno".toList ++ '_' :: renderInt sq] 3 =
      .ok ("module".toList ++ '_' :: renderInt mo) from rfl, eBind_pure]
    rw [hsD]
    rw [show listIdx ["module".toList, renderInt mo] 1 = .ok (renderInt mo) from rfl,
      eBind_pure]
    rw [show pyIntE (renderInt mo) = .ok mo from pyIntE_ok_iff.mpr (pyInt_renderInt mo),
      eBind_pure]
    rw [show listIdx [pfx ++ '_' :: fmtTs t, "dp".toList ++ '_' :: dp,
      "bpp".toList ++ '_' :: renderInt bpp, "module".toList ++ '_' :: renderInt mo,
      "seqno".toList ++ '_' :: renderInt sq] 4 =
      .ok ("seqno".toList ++ '_' :: renderInt sq) from rfl, eBind_pure]
    rw [hsE]
    rw [show listIdx ["seqno".toList, renderInt sq] 1 = .ok (renderInt sq) from rfl,
      eBind_pure]
    rw [show pyIntE (renderInt sq) = .ok sq from pyIntE_ok_iff.mpr (pyInt_renderInt sq),
      eBind_pure]
  refine ⟨mkDatapff (renderFilename pfx (mkDatapff fn t dp bpp mo sq)) t dp bpp mo sq,
    ?_, rfl, rfl, rfl, rfl, rfl⟩
  unfold datapffInit
  rw [hpf, eBind_pure]

theorem c9_witness :
    ∃ d', datapffInit (renderFilename "obs".toList dPh256) = .ok d' ∧
      d'.startdt = dPh256.startdt ∧ d'.dp = dPh256.dp ∧ d'.bpp = dPh256.bpp ∧
      d'.module = dPh256.module ∧ d'.seqno = dPh256.seqno :=
  c9_filename_roundtrip "obs".toList fnPh256 dPh256 (by decide) (by decide) (by decide)
